import Mathlib

/-!
Verification development for the SMS burst job-dispatch service (`src/app.py`).

The Python source is shallowly embedded as follows.

* Pure request handlers (`require_key`, `start_job`, `job_status`, `stop_job`,
  `list_jobs`, `health`) become pure Lean functions from their inputs (header,
  parsed JSON body, registry) to a response together with the new registry.
* The concurrent engine (`run_job` plus the `fire` threads it spawns) becomes a
  labelled transition system: a `ProcState` holds the job registry, the control
  state of every job-runner thread (with its per-job semaphore counter), the
  multiset of in-flight dispatch units, and a history of all units ever
  spawned.  An `Action` picks which thread makes its next atomic step; the
  atomic sections are exactly the `with jobs_lock:` blocks of the source, so
  the stale-read between the runner's ceiling check and the later thread spawn
  is represented faithfully.
* The outbound HTTP call itself is environment-controlled: a dispatch unit
  completes with a nondeterministically chosen `Outcome` (transport failure,
  i.e. the `except` path of `fire`, or an HTTP status code).
* Python floats for `delay` are embedded as rationals (only order and
  clamping matter), machine strings as Lean `String` (`str.strip` as
  `pyStrip`, `str.split(",")` as `pySplitComma`, slicing `[:12]` as
  `String.take 12`).
-/

namespace BurstApi

/-- Python's `str.strip()` (no argument): drop whitespace from both ends.
Written by structural recursion over the character list so that it computes
inside the kernel. -/
def pyStrip (s : String) : String :=
  ⟨((s.data.dropWhile Char.isWhitespace).reverse.dropWhile Char.isWhitespace).reverse⟩

/-- Python's `str.split(",")`: split on every comma, keeping empty pieces. -/
def pySplitComma (s : String) : List String :=
  (s.data.splitOn ',').map fun cs => (⟨cs⟩ : String)

/-- Job status values: the strings "running" / "stopped" / "done" of the source. -/
inductive Status
  | running
  | stopped
  | done
deriving DecidableEq, Repr

/-- One entry of the endpoint catalog (`apidata.json`), as consumed by `fire`:
`url`, optional `method` (default "POST"), serialized `data` template, and the
optional display `name` (default "svc").  Only `name` influences the job
record; the other fields shape the outbound request, which the model treats as
environment-controlled. -/
structure Service where
  url : String
  method : Option String
  data : Option String
  name : Option String
deriving DecidableEq, Repr

/-- Result of one outbound call, as `fire` observes it: either an exception
(the `except` path: transport/network failure, bad template, timeout …) or a
response with an HTTP status code. -/
inductive Outcome
  | transportErr
  | httpStatus (code : Nat)
deriving DecidableEq, Repr

/-- The mutable job record stored in the `jobs` dict (`start_job` lines
176-186): status, sent counter, log list, plus the immutable echo fields. -/
structure JobRecord where
  status : Status
  sent : Nat
  logs : List String
  targets : List String
  mode : String
  delay : ℚ
  maxRequests : Nat
  startedAt : String
deriving DecidableEq, Repr

/-- `service.get("name", "svc")[:12]` — display name truncated to its first 12
characters (Python slices by code point, modelled on the character list). -/
def svcName (svc : Service) : String :=
  ⟨(svc.name.getD "svc").data.take 12⟩

/-- The registry mutation performed by `fire` (lines 63-78) once the outcome of
the call is known, given that the job is present.  On a status outcome the new
entry is prepended and the list truncated to 30 (`logs[:30]`, line 74); on the
exception path the entry is prepended without truncation (line 78). -/
def fireUpdate (svc : Service) (o : Outcome) (j : JobRecord) : JobRecord :=
  match o with
  | .httpStatus code =>
      let j1 :=
        if code < 300 then
          { j with sent := j.sent + 1, logs := ("✅ " ++ svcName svc ++ " OK") :: j.logs }
        else if code = 403 then
          { j with logs := ("🚫 " ++ svcName svc ++ " blocked") :: j.logs }
        else
          { j with logs := ("⚠️ " ++ svcName svc ++ " " ++ toString code) :: j.logs }
      { j1 with logs := j1.logs.take 30 }
  | .transportErr =>
      { j with logs := ("💥 " ++ svcName svc ++ " err") :: j.logs }

/-- The job registry `jobs`: an association list keyed by job id (Python dict
with unique keys). -/
abbrev Registry := List (String × JobRecord)

/-- `jobs.get(jid)`. -/
def lookupJob : Registry → String → Option JobRecord
  | [], _ => none
  | (k, v) :: rest, jid => if k = jid then some v else lookupJob rest jid

/-- In-place mutation of `jobs[jid]` (no-op when the key is absent, matching
the `if job_id in jobs` guards of the source). -/
def updateJob (f : JobRecord → JobRecord) : Registry → String → Registry
  | [], _ => []
  | (k, v) :: rest, jid =>
      if k = jid then (k, f v) :: rest else (k, v) :: updateJob f rest jid

/-- The singleton log written by `run_job` when the catalog is empty (line 86). -/
def noServicesLog : String := "❌ No services loaded from apidata.json"

/-- Control state of one `run_job` thread.  Each constructor is the point just
before one atomic section of the source:

* `load` — about to call `load_services` and run the empty check (lines 82-87);
* `nextTarget rem` — at the top of the target loop with `rem` still to do;
* `checkSvc remSvcs phone remT` — at the top of the endpoint loop: about to
  take `jobs_lock`, check for "stopped" and read `sent` (lines 100-106);
* `acquireSpawn svc remSvcs phone remT` — passed the ceiling check, about to
  `semaphore.acquire()` and start the `_go` thread (lines 108-114); between
  the previous read of `sent` and this spawn, completions may run — the
  decision to submit is based on the (possibly stale) earlier read;
* `passEnd remT` — after the endpoint loop, about to run the
  `if mode != "Nuclear": break` check (lines 117-119);
* `drain k` — in the join-barrier loop, `k` acquisitions still to do
  (lines 122-123);
* `finalize` — about to run the final status update (lines 125-127);
* `finished` — returned (either normally or via the `return` at line 102 or
  line 87). -/
inductive RunnerPC
  | load
  | nextTarget (rem : List String)
  | checkSvc (remSvcs : List Service) (phone : String) (remT : List String)
  | acquireSpawn (svc : Service) (remSvcs : List Service) (phone : String) (remT : List String)
  | passEnd (remT : List String)
  | drain (k : Nat)
  | finalize
  | finished
deriving DecidableEq, Repr

/-- One `run_job` thread: its arguments (job id, targets, mode, max_requests),
the services loaded at `load`, the free-slot count of its local
`threading.Semaphore(MAX_THREADS)`, and its control state.  (`delay` only
paces the loop in real time and has no effect on reachable states.) -/
structure Runner where
  jid : String
  targets : List String
  mode : String
  maxRequests : Nat
  services : List Service
  sem : Nat
  pc : RunnerPC
deriving DecidableEq, Repr

/-- One in-flight dispatch unit: a `_go` thread spawned at line 114, carrying
the service and (trimmed) phone it will fire at, tagged with its owning job. -/
structure DUnit where
  jid : String
  svc : Service
  phone : String
deriving DecidableEq, Repr

/-- Whole-process state: the shared registry, all runner threads, the
in-flight dispatch units, and the (ghost) history of every unit ever
spawned. -/
structure ProcState where
  reg : Registry
  runners : List Runner
  pending : List DUnit
  history : List DUnit
deriving DecidableEq, Repr

/-- Schedulable events: `runner i` lets runner thread `i` execute its next
atomic section; `complete i o` lets in-flight unit `i` finish its call with
outcome `o` (applying `fire`'s registry update and releasing its semaphore
slot); `stopReq jid` is an authenticated `POST /api/job/<jid>/stop`. -/
inductive Action
  | runner (i : Nat)
  | complete (i : Nat) (o : Outcome)
  | stopReq (jid : String)
deriving DecidableEq, Repr

/-- `semaphore.release()` performed by the `finally:` of `_go` — the semaphore
is a local of the owning job's `run_job` call, found here by job id. -/
def releaseSem (rs : List Runner) (jid : String) : List Runner :=
  rs.map fun r => if r.jid = jid then { r with sem := r.sem + 1 } else r

/-- One atomic step of runner thread `i` (`cap` is `MAX_THREADS`, `cat` the
content of `apidata.json`).  Disabled steps (blocked semaphore, missing
runner, finished runner, missing job record) leave the state unchanged. -/
def runnerStep (cat : List Service) (cap : Nat) (s : ProcState) (i : Nat) : ProcState :=
  match s.runners[i]? with
  | none => s
  | some r =>
    match r.pc with
    | .load =>
        if cat.isEmpty then
          { s with
              reg := updateJob (fun j => { j with status := .done, logs := [noServicesLog] }) s.reg r.jid,
              runners := s.runners.set i { r with pc := .finished } }
        else
          { s with runners := s.runners.set i { r with services := cat, pc := .nextTarget r.targets } }
    | .nextTarget rem =>
        match rem with
        | [] => { s with runners := s.runners.set i { r with pc := .drain cap } }
        | t :: rest =>
            let phone := pyStrip t
            if phone.length < 10 then
              { s with runners := s.runners.set i { r with pc := .nextTarget rest } }
            else
              { s with runners := s.runners.set i { r with pc := .checkSvc r.services phone rest } }
    | .checkSvc remSvcs phone remT =>
        match remSvcs with
        | [] => { s with runners := s.runners.set i { r with pc := .passEnd remT } }
        | svc :: rest =>
            match lookupJob s.reg r.jid with
            | none => s
            | some j =>
                if j.status = .stopped then
                  { s with runners := s.runners.set i { r with pc := .finished } }
                else if r.maxRequests ≤ j.sent then
                  { s with runners := s.runners.set i { r with pc := .passEnd remT } }
                else
                  { s with runners := s.runners.set i { r with pc := .acquireSpawn svc rest phone remT } }
    | .acquireSpawn svc rest phone remT =>
        if r.sem = 0 then s
        else
          { s with
              runners := s.runners.set i { r with sem := r.sem - 1, pc := .checkSvc rest phone remT },
              pending := s.pending ++ [⟨r.jid, svc, phone⟩],
              history := s.history ++ [⟨r.jid, svc, phone⟩] }
    | .passEnd remT =>
        if r.mode = "Nuclear" then
          { s with runners := s.runners.set i { r with pc := .nextTarget remT } }
        else
          { s with runners := s.runners.set i { r with pc := .drain cap } }
    | .drain k =>
        match k with
        | 0 => { s with runners := s.runners.set i { r with pc := .finalize } }
        | k' + 1 =>
            if r.sem = 0 then s
            else { s with runners := s.runners.set i { r with sem := r.sem - 1, pc := .drain k' } }
    | .finalize =>
        { s with
            reg := updateJob (fun j => if j.status = .running then { j with status := .done } else j) s.reg r.jid,
            runners := s.runners.set i { r with pc := .finished } }
    | .finished => s

/-- Completion of in-flight unit `i` with outcome `o`: the unit leaves the
in-flight set, `fire` applies its registry update (lines 63-78) and the
`finally:` releases the owning semaphore slot. -/
def completeStep (s : ProcState) (i : Nat) (o : Outcome) : ProcState :=
  match s.pending[i]? with
  | none => s
  | some u =>
      { s with
          pending := s.pending.eraseIdx i,
          reg := updateJob (fireUpdate u.svc o) s.reg u.jid,
          runners := releaseSem s.runners u.jid }

/-- Registry effect of an authenticated `stop_job` (lines 221-224): sets the
status to "stopped" unconditionally when the job exists. -/
def stopStep (s : ProcState) (jid : String) : ProcState :=
  match lookupJob s.reg jid with
  | none => s
  | some _ => { s with reg := updateJob (fun j => { j with status := .stopped }) s.reg jid }

/-- Interleaving semantics: one scheduled event. -/
def step (cat : List Service) (cap : Nat) (s : ProcState) : Action → ProcState
  | .runner i => runnerStep cat cap s i
  | .complete i o => completeStep s i o
  | .stopReq jid => stopStep s jid

/-- Run a whole schedule of events. -/
def exec (cat : List Service) (cap : Nat) (s : ProcState) : List Action → ProcState
  | [] => s
  | a :: acts => exec cat cap (step cat cap s a) acts

/-- Parameters of one started job, as handed to `run_job` by `start_job`. -/
structure JobSpec where
  jid : String
  targets : List String
  mode : String
  delay : ℚ
  maxReq : Nat
  startedAt : String
deriving DecidableEq, Repr

/-- The fresh record `start_job` inserts (lines 176-186). -/
def mkJob (sp : JobSpec) : JobRecord :=
  { status := .running, sent := 0, logs := [], targets := sp.targets,
    mode := sp.mode, delay := sp.delay, maxRequests := sp.maxReq,
    startedAt := sp.startedAt }

/-- The `run_job` thread `start_job` spawns (lines 188-192), with its
semaphore at full capacity and control at the top of the function. -/
def mkRunner (cap : Nat) (sp : JobSpec) : Runner :=
  { jid := sp.jid, targets := sp.targets, mode := sp.mode,
    maxRequests := sp.maxReq, services := [], sem := cap, pc := .load }

/-- Process state right after a batch of jobs has been started and before any
runner has run. -/
def mkInit (cap : Nat) (specs : List JobSpec) : ProcState :=
  { reg := specs.map fun sp => (sp.jid, mkJob sp),
    runners := specs.map (mkRunner cap),
    pending := [],
    history := [] }

/-- Sent counter of a job as a status query reports it (0 when absent). -/
def sentOf (s : ProcState) (jid : String) : Nat :=
  match lookupJob s.reg jid with
  | some j => j.sent
  | none => 0

/-- Status field of a job, when present. -/
def statusOf (s : ProcState) (jid : String) : Option Status :=
  (lookupJob s.reg jid).map JobRecord.status

/-- Log list of a job (empty when absent). -/
def logsOf (s : ProcState) (jid : String) : List String :=
  match lookupJob s.reg jid with
  | some j => j.logs
  | none => []

/-- Number of units of job `jid` in a unit list. -/
def countJ (jid : String) (l : List DUnit) : Nat :=
  (l.filter fun u => u.jid = jid).length

/-! ### HTTP layer: authentication and the five routes -/

/-- The acceptance test of the `require_key` decorator (lines 30-37): the
`X-API-Key` header (absent ↦ `""`) is stripped and must be non-empty and equal
to `API_KEY`. -/
def keyOk (apiKey : String) (header : Option String) : Bool :=
  let key := pyStrip (header.getD "")
  !(key = "" || key != apiKey)

/-- The `targets` field of the start body: either a comma-joined string or a
list of strings (already coerced through `str`). -/
inductive RawTargets
  | ofStr (s : String)
  | ofList (l : List String)
deriving DecidableEq, Repr

/-- Parsed JSON body of `POST /api/job/start`; absent fields are `none`. -/
structure StartBody where
  targets : RawTargets
  mode : Option String
  delay : Option ℚ
  maxRequests : Option Int
deriving DecidableEq, Repr

/-- Target parsing of `start_job` (lines 156-160): split a string form on
commas, strip every element, drop the falsy (empty-after-strip) ones. -/
def parseTargets : RawTargets → List String
  | .ofStr s => ((pySplitComma s).map pyStrip).filter fun t => t ≠ ""
  | .ofList l => (l.map pyStrip).filter fun t => t ≠ ""

/-- `delay = max(0.1, min(delay, 60.0))` (line 170). -/
def clampDelay (d : ℚ) : ℚ := max 0.1 (min d 60.0)

/-- `max_requests = max(1, min(max_requests, 1000))` (line 171). -/
def clampMaxRequests (m : Int) : Int := max 1 (min m 1000)

/-- The 202 payload of a successful start (lines 196-203). -/
structure StartResponse where
  jobId : String
  status : String
  targetsCount : Nat
  mode : String
  delay : ℚ
  maxRequests : Nat
deriving DecidableEq, Repr

/-- Result of `start_job` past the key check: a 400 for an empty target list,
or a 202 with the created record and the spec handed to the `run_job`
thread. -/
inductive StartResult
  | badRequest
  | accepted (sp : JobSpec) (record : JobRecord) (resp : StartResponse)
deriving DecidableEq, Repr

/-- Body of `start_job` (lines 153-203), given the freshly generated job id
and timestamp: parse targets, reject an empty list, clamp `delay` and
`max_requests`, store the record and echo the clamped values.  The clamped
`max_requests` lies in `[1, 1000]`, so it is stored as a `Nat` via `toInt`
inverse. -/
def startJobBody (jid now : String) (body : StartBody) : StartResult :=
  let targets := parseTargets body.targets
  if targets = [] then .badRequest
  else
    let mode := body.mode.getD "Normal"
    let delay := clampDelay (body.delay.getD 0.5)
    let maxReq := (clampMaxRequests (body.maxRequests.getD 10)).toNat
    let sp : JobSpec :=
      { jid := jid, targets := targets, mode := mode, delay := delay,
        maxReq := maxReq, startedAt := now }
    .accepted sp (mkJob sp)
      { jobId := jid, status := "running", targetsCount := targets.length,
        mode := mode, delay := delay, maxRequests := maxReq }

/-- Response of a route guarded by `require_key`. -/
inductive ApiResult (α : Type)
  | unauthorized
  | notFound
  | ok (payload : α)
deriving DecidableEq, Repr

/-- `POST /api/job/start` including the key check: a rejected request touches
neither the registry nor anything else. -/
def startRoute (apiKey : String) (header : Option String) (jid now : String)
    (body : StartBody) (reg : Registry) : ApiResult StartResult × Registry :=
  if keyOk apiKey header then
    match startJobBody jid now body with
    | .badRequest => (.ok .badRequest, reg)
    | .accepted sp record resp =>
        (.ok (.accepted sp record resp), reg ++ [(jid, record)])
  else (.unauthorized, reg)

/-- `GET /api/job/<jid>` (lines 206-214). -/
def statusRoute (apiKey : String) (header : Option String) (jid : String)
    (reg : Registry) : ApiResult JobRecord × Registry :=
  if keyOk apiKey header then
    match lookupJob reg jid with
    | none => (.notFound, reg)
    | some j => (.ok j, reg)
  else (.unauthorized, reg)

/-- `POST /api/job/<jid>/stop` (lines 217-225): unconditionally overwrites the
status with "stopped" when the job exists. -/
def stopRoute (apiKey : String) (header : Option String) (jid : String)
    (reg : Registry) : ApiResult (String × String) × Registry :=
  if keyOk apiKey header then
    match lookupJob reg jid with
    | none => (.notFound, reg)
    | some _ => (.ok (jid, "stopped"), updateJob (fun j => { j with status := .stopped }) reg jid)
  else (.unauthorized, reg)

/-- A job record as `list_jobs` serializes it: every field except `logs`. -/
structure JobView where
  jobId : String
  status : Status
  sent : Nat
  targets : List String
  mode : String
  delay : ℚ
  maxRequests : Nat
  startedAt : String
deriving DecidableEq, Repr

/-- Drop the `logs` field (line 234). -/
def viewOf (e : String × JobRecord) : JobView :=
  { jobId := e.1, status := e.2.status, sent := e.2.sent,
    targets := e.2.targets, mode := e.2.mode, delay := e.2.delay,
    maxRequests := e.2.maxRequests, startedAt := e.2.startedAt }

/-- `GET /api/jobs` (lines 228-237): strip logs, sort by `started_at`
descending, return at most 20. -/
def listRoute (apiKey : String) (header : Option String)
    (reg : Registry) : ApiResult (List JobView) × Registry :=
  if keyOk apiKey header then
    (.ok (((reg.map viewOf).mergeSort fun a b => b.startedAt ≤ a.startedAt).take 20), reg)
  else (.unauthorized, reg)

/-- `GET /health` (lines 135-137): no `require_key` decorator; always answers
with `"ok"` and the size of the job registry. -/
structure HealthPayload where
  status : String
  activeJobs : Nat
deriving DecidableEq, Repr

/-- The `/health` handler: reads the registry without any key check. -/
def healthRoute (reg : Registry) : HealthPayload :=
  { status := "ok", activeJobs := reg.length }

/-! ### Invariants of the engine

`RInv` collects, per runner thread, the facts preserved by every interleaving:
semaphore accounting, the ceiling discipline (including the one extra
submission that may ride on a stale `sent` read), provenance of the phones in
the control state and in the spawned units, and — outside "Nuclear" mode — the
single-pass discipline. -/

/-- The first target that survives the length filter of `run_job`
(lines 94-96), already stripped. -/
def firstValid : List String → Option String
  | [] => none
  | t :: rest =>
      if (pyStrip t).length < 10 then firstValid rest else some (pyStrip t)

/-- Provenance of the control state: every phone mentioned by the pc is the
strip of one of the runner's targets and passed the length filter, and every
remaining-target list is drawn from the runner's targets. -/
def pcProv (r : Runner) : Prop :=
  match r.pc with
  | .nextTarget rem => ∀ t ∈ rem, t ∈ r.targets
  | .checkSvc _ ph remT =>
      (10 ≤ ph.length ∧ ∃ t ∈ r.targets, ph = pyStrip t) ∧ ∀ t ∈ remT, t ∈ r.targets
  | .acquireSpawn _ _ ph remT =>
      (10 ≤ ph.length ∧ ∃ t ∈ r.targets, ph = pyStrip t) ∧ ∀ t ∈ remT, t ∈ r.targets
  | .passEnd remT => ∀ t ∈ remT, t ∈ r.targets
  | _ => True

/-- Single-pass accounting for a non-"Nuclear" runner: before the first valid
target is found nothing has been spawned, during the (unique) endpoint pass
the number of spawned units plus the endpoints still to visit is bounded by
the catalog size, and the phone in flight is the first valid target. -/
def pcPass (catLen histCount : Nat) (r : Runner) : Prop :=
  match r.pc with
  | .load => histCount = 0
  | .nextTarget rem => histCount = 0 ∧ firstValid rem = firstValid r.targets
  | .checkSvc rem ph _ =>
      firstValid r.targets = some ph ∧ histCount + rem.length ≤ catLen
  | .acquireSpawn _ rem ph _ =>
      firstValid r.targets = some ph ∧ histCount + rem.length + 1 ≤ catLen
  | _ => histCount ≤ catLen

/-- Per-runner invariant. -/
def RInv (cat : List Service) (cap : Nat) (s : ProcState) (r : Runner) : Prop :=
  r.sem + countJ r.jid s.pending ≤ cap ∧
  r.services.length ≤ cat.length ∧
  (∀ j, lookupJob s.reg r.jid = some j →
      j.sent + countJ r.jid s.pending ≤ r.maxRequests + cap ∧
      (∀ svc rem ph remT, r.pc = .acquireSpawn svc rem ph remT →
          j.sent + countJ r.jid s.pending + 1 ≤ r.maxRequests + cap)) ∧
  pcProv r ∧
  (∀ u ∈ s.history, u.jid = r.jid →
      10 ≤ u.phone.length ∧ ∃ t ∈ r.targets, u.phone = pyStrip t) ∧
  (r.mode ≠ "Nuclear" →
      (∀ u ∈ s.history, u.jid = r.jid → firstValid r.targets = some u.phone) ∧
      pcPass cat.length (countJ r.jid s.history) r)

/-- Whole-process invariant: job ids of the runner threads are pairwise
distinct (each job spawns exactly one `run_job` thread) and every runner
satisfies its local invariant. -/
def Inv (cat : List Service) (cap : Nat) (s : ProcState) : Prop :=
  (s.runners.map Runner.jid).Nodup ∧
  ∀ (i : Nat) (r : Runner), s.runners[i]? = some r → RInv cat cap s r

/-! ### Helper lemmas: registry, counting, runner lists -/

theorem lookup_update_self (f : JobRecord → JobRecord) (reg : Registry) (k : String) :
    lookupJob (updateJob f reg k) k = (lookupJob reg k).map f := by
  induction reg with
  | nil => rfl
  | cons e rest ih =>
      obtain ⟨k2, v⟩ := e
      by_cases h : k2 = k
      · simp [updateJob, lookupJob, h]
      · simp [updateJob, lookupJob, h, ih]

theorem lookup_update_ne (f : JobRecord → JobRecord) (reg : Registry) {k k2 : String}
    (h : k ≠ k2) : lookupJob (updateJob f reg k) k2 = lookupJob reg k2 := by
  induction reg with
  | nil => rfl
  | cons e rest ih =>
      obtain ⟨k1, v⟩ := e
      by_cases h1 : k1 = k
      · subst h1
        simp [updateJob, lookupJob, h]
      · by_cases h2 : k1 = k2
        · subst h2
          simp [updateJob, lookupJob, h1]
        · simp [updateJob, lookupJob, h1, h2, ih]

theorem countJ_append (jid : String) (l l2 : List DUnit) :
    countJ jid (l ++ l2) = countJ jid l + countJ jid l2 := by
  simp [countJ, List.filter_append]

theorem countJ_single (jid : String) (u : DUnit) :
    countJ jid [u] = if u.jid = jid then 1 else 0 := by
  by_cases h : u.jid = jid <;> simp [countJ, h]

theorem countJ_cons (jid : String) (u : DUnit) (l : List DUnit) :
    countJ jid (u :: l) = (if u.jid = jid then 1 else 0) + countJ jid l := by
  by_cases h : u.jid = jid <;> simp [countJ, h, Nat.add_comm]

theorem countJ_snoc_self (jid : String) (l : List DUnit) (svc : Service) (ph : String) :
    countJ jid (l ++ [⟨jid, svc, ph⟩]) = countJ jid l + 1 := by
  simp [countJ_append, countJ_single]

theorem countJ_snoc_ne (jid jid2 : String) (l : List DUnit) (svc : Service) (ph : String)
    (h : jid ≠ jid2) : countJ jid2 (l ++ [⟨jid, svc, ph⟩]) = countJ jid2 l := by
  simp [countJ_append, countJ_single, h]

theorem countJ_eraseIdx (jid : String) (l : List DUnit) (i : Nat) (u : DUnit)
    (h : l[i]? = some u) :
    countJ jid l = countJ jid (l.eraseIdx i) + (if u.jid = jid then 1 else 0) := by
  induction l generalizing i with
  | nil => simp at h
  | cons a rest ih =>
      cases i with
      | zero =>
          simp only [List.getElem?_cons_zero, Option.some.injEq] at h
          subst h
          rw [List.eraseIdx_zero, List.tail_cons, countJ_cons, Nat.add_comm]
      | succ n =>
          simp only [List.getElem?_cons_succ] at h
          rw [List.eraseIdx_cons_succ, countJ_cons, countJ_cons, ih n h, Nat.add_assoc]

theorem map_set_eq {α β : Type} (f : α → β) (l : List α) (i : Nat) {a : α} (b : α)
    (h : l[i]? = some a) (hfb : f b = f a) : (l.set i b).map f = l.map f := by
  induction l generalizing i with
  | nil => rfl
  | cons x rest ih =>
      cases i with
      | zero =>
          simp only [List.getElem?_cons_zero, Option.some.injEq] at h
          subst h
          simp [List.set, hfb]
      | succ n =>
          simp only [List.getElem?_cons_succ] at h
          simp [List.set, ih n h]

theorem releaseSem_getElem (rs : List Runner) (jid : String) (i : Nat) :
    (releaseSem rs jid)[i]? =
      rs[i]?.map fun r => if r.jid = jid then { r with sem := r.sem + 1 } else r := by
  simp [releaseSem, List.getElem?_map]

theorem jid_releaseSem (rs : List Runner) (jid : String) :
    (releaseSem rs jid).map Runner.jid = rs.map Runner.jid := by
  unfold releaseSem
  rw [List.map_map]
  apply List.map_congr_left
  intro r _
  by_cases h : r.jid = jid <;> simp [h]

theorem jid_ne_of_nodup {rs : List Runner} (hn : (rs.map Runner.jid).Nodup)
    {i k : Nat} {r r2 : Runner} (hi : rs[i]? = some r) (hk : rs[k]? = some r2)
    (hik : i ≠ k) : r.jid ≠ r2.jid := by
  intro he
  apply hik
  have hilt : i < (rs.map Runner.jid).length := by
    rw [List.length_map]
    exact (List.getElem?_eq_some.mp hi).1
  apply List.getElem?_inj hilt hn
  rw [List.getElem?_map, List.getElem?_map, hi, hk]
  simp [he]

theorem fireUpdate_sent (svc : Service) (o : Outcome) (j : JobRecord) :
    (fireUpdate svc o j).sent = j.sent ∨ (fireUpdate svc o j).sent = j.sent + 1 := by
  cases o with
  | transportErr => left; rfl
  | httpStatus code =>
      by_cases hc : code < 300
      · right; simp [fireUpdate, hc]
      · left
        by_cases h4 : code = 403 <;> simp [fireUpdate, hc, h4]

/-! ### Preservation of the invariant -/

/-- `RInv` transfers to any state change that leaves the runner's pending
count, its history units and the sent counter of its job unchanged. -/
theorem rinv_mono (cat : List Service) (cap : Nat) (s s2 : ProcState) (r : Runner)
    (hreg : ∀ j, lookupJob s2.reg r.jid = some j →
        ∃ j0, lookupJob s.reg r.jid = some j0 ∧ j.sent = j0.sent)
    (hpend : countJ r.jid s2.pending = countJ r.jid s.pending)
    (hhistC : countJ r.jid s2.history = countJ r.jid s.history)
    (hhistM : ∀ u ∈ s2.history, u.jid = r.jid → u ∈ s.history)
    (h : RInv cat cap s r) : RInv cat cap s2 r := by
  obtain ⟨h1, h2, h3, h4, h5, h6⟩ := h
  refine ⟨by rw [hpend]; exact h1, h2, ?_, h4, ?_, ?_⟩
  · intro j hj
    obtain ⟨j0, hj0, hsent⟩ := hreg j hj
    obtain ⟨hb, hspawn⟩ := h3 j0 hj0
    rw [hpend, hsent]
    exact ⟨hb, hspawn⟩
  · intro u hu hju
    exact h5 u (hhistM u hu hju) hju
  · intro hm
    obtain ⟨ha, hb⟩ := h6 hm
    refine ⟨fun u hu hju => ha u (hhistM u hu hju) hju, ?_⟩
    rw [hhistC]
    exact hb

/-- A step of runner `i` that replaces it by `r2` (same job id) and touches
the registry, the pending units and the history only at its own job id
preserves the whole-process invariant, given the stepped runner's own
invariant in the new state. -/
theorem inv_set_update (cat : List Service) (cap : Nat) (s s2 : ProcState) (i : Nat)
    (r r2 : Runner) (hi : s.runners[i]? = some r)
    (hrs : s2.runners = s.runners.set i r2) (hjid : r2.jid = r.jid)
    (hreg : ∀ jid2 : String, jid2 ≠ r.jid → lookupJob s2.reg jid2 = lookupJob s.reg jid2)
    (hpend : ∀ jid2 : String, jid2 ≠ r.jid → countJ jid2 s2.pending = countJ jid2 s.pending)
    (hhistC : ∀ jid2 : String, jid2 ≠ r.jid → countJ jid2 s2.history = countJ jid2 s.history)
    (hhistM : ∀ u ∈ s2.history, u.jid ≠ r.jid → u ∈ s.history)
    (hself : RInv cat cap s2 r2)
    (hInv : Inv cat cap s) : Inv cat cap s2 := by
  obtain ⟨hn, hall⟩ := hInv
  have hmap : s2.runners.map Runner.jid = s.runners.map Runner.jid := by
    rw [hrs]
    exact map_set_eq Runner.jid s.runners i r2 hi hjid
  refine ⟨by rw [hmap]; exact hn, ?_⟩
  intro k r3 hk
  rw [hrs, List.getElem?_set] at hk
  by_cases hik : i = k
  · rw [if_pos hik, if_pos] at hk
    · cases hk
      exact hself
    · exact (List.getElem?_eq_some.mp hi).1
  · rw [if_neg hik] at hk
    have hne : r3.jid ≠ r.jid :=
      (jid_ne_of_nodup hn hi hk (fun he => hik he)).symm
    exact rinv_mono cat cap s s2 r3
      (fun j hj => ⟨j, by rw [← hreg r3.jid hne]; exact hj, rfl⟩)
      (hpend r3.jid hne) (hhistC r3.jid hne)
      (fun u hu hju => hhistM u hu (by rw [hju]; exact hne))
      (hall k r3 hk)

/-- Every runner-thread step preserves the invariant. -/
theorem inv_runnerStep (cat : List Service) (cap : Nat) (s : ProcState) (i : Nat)
    (h : Inv cat cap s) : Inv cat cap (runnerStep cat cap s i) := by
  cases hi : s.runners[i]? with
  | none => simpa [runnerStep, hi] using h
  | some r =>
    have hr := h.2 i r hi
    obtain ⟨h1, h2, h3, h4, h5, h6⟩ := hr
    cases hpc : r.pc with
    | load =>
        by_cases hcat : cat.isEmpty
        · simp only [runnerStep, hi, hpc]
          rw [if_pos hcat]
          refine inv_set_update cat cap s _ i r _ hi rfl rfl
            (fun jid2 hne => lookup_update_ne _ _ (Ne.symm hne))
            (fun _ _ => rfl) (fun _ _ => rfl) (fun u hu _ => hu) ?_ h
          simp only [RInv, pcProv, pcPass]
          refine ⟨h1, h2, ?_, trivial, h5, ?_⟩
          · intro j hj
            rw [lookup_update_self] at hj
            cases hl : lookupJob s.reg r.jid with
            | none => rw [hl] at hj; cases hj
            | some j0 =>
                rw [hl] at hj
                injection hj with hj2
                have hs : j.sent = j0.sent := by rw [← hj2]
                have hb0 := (h3 j0 hl).1
                refine ⟨by omega, ?_⟩
                intro svc rem ph remT hpc2
                cases hpc2
          · intro hm
            obtain ⟨ha, hb⟩ := h6 hm
            simp only [pcPass, hpc] at hb
            exact ⟨ha, by omega⟩
        · simp only [runnerStep, hi, hpc]
          rw [if_neg hcat]
          refine inv_set_update cat cap s _ i r _ hi rfl rfl
            (fun _ _ => rfl) (fun _ _ => rfl) (fun _ _ => rfl) (fun u hu _ => hu) ?_ h
          simp only [RInv, pcProv, pcPass]
          refine ⟨h1, le_refl _, ?_, fun t ht => ht, h5, ?_⟩
          · intro j hj
            refine ⟨(h3 j hj).1, ?_⟩
            intro svc rem ph remT hpc2
            cases hpc2
          · intro hm
            obtain ⟨ha, hb⟩ := h6 hm
            simp only [pcPass, hpc] at hb
            exact ⟨ha, hb, trivial⟩
    | nextTarget rem =>
        simp only [pcProv, hpc] at h4
        cases rem with
        | nil =>
            simp only [runnerStep, hi, hpc]
            refine inv_set_update cat cap s _ i r _ hi rfl rfl
              (fun _ _ => rfl) (fun _ _ => rfl) (fun _ _ => rfl) (fun u hu _ => hu) ?_ h
            simp only [RInv, pcProv, pcPass]
            refine ⟨h1, h2, ?_, trivial, h5, ?_⟩
            · intro j hj
              refine ⟨(h3 j hj).1, ?_⟩
              intro svc rem2 ph remT hpc2
              cases hpc2
            · intro hm
              obtain ⟨ha, hb⟩ := h6 hm
              simp only [pcPass, hpc] at hb
              exact ⟨ha, by omega⟩
        | cons t rest =>
            by_cases hlen : (pyStrip t).length < 10
            · simp only [runnerStep, hi, hpc]
              rw [if_pos hlen]
              refine inv_set_update cat cap s _ i r _ hi rfl rfl
                (fun _ _ => rfl) (fun _ _ => rfl) (fun _ _ => rfl) (fun u hu _ => hu) ?_ h
              simp only [RInv, pcProv, pcPass]
              refine ⟨h1, h2, ?_, fun t2 ht2 => h4 t2 (List.mem_cons_of_mem t ht2), h5, ?_⟩
              · intro j hj
                refine ⟨(h3 j hj).1, ?_⟩
                intro svc rem2 ph remT hpc2
                cases hpc2
              · intro hm
                obtain ⟨ha, hb⟩ := h6 hm
                simp only [pcPass, hpc] at hb
                refine ⟨ha, hb.1, ?_⟩
                rw [← hb.2]
                simp [firstValid, hlen]
            · simp only [runnerStep, hi, hpc]
              rw [if_neg hlen]
              refine inv_set_update cat cap s _ i r _ hi rfl rfl
                (fun _ _ => rfl) (fun _ _ => rfl) (fun _ _ => rfl) (fun u hu _ => hu) ?_ h
              simp only [RInv, pcProv, pcPass]
              refine ⟨h1, h2, ?_, ?_, h5, ?_⟩
              · intro j hj
                refine ⟨(h3 j hj).1, ?_⟩
                intro svc rem2 ph remT hpc2
                cases hpc2
              · refine ⟨⟨by omega, t, h4 t (List.mem_cons_self t rest), rfl⟩, ?_⟩
                exact fun t2 ht2 => h4 t2 (List.mem_cons_of_mem t ht2)
              · intro hm
                obtain ⟨ha, hb⟩ := h6 hm
                simp only [pcPass, hpc] at hb
                refine ⟨ha, ?_, ?_⟩
                · rw [← hb.2]
                  simp [firstValid, hlen]
                · have := hb.1
                  omega
    | checkSvc remSvcs ph remT =>
        simp only [pcProv, hpc] at h4
        cases remSvcs with
        | nil =>
            simp only [runnerStep, hi, hpc]
            refine inv_set_update cat cap s _ i r _ hi rfl rfl
              (fun _ _ => rfl) (fun _ _ => rfl) (fun _ _ => rfl) (fun u hu _ => hu) ?_ h
            simp only [RInv, pcProv, pcPass]
            refine ⟨h1, h2, ?_, h4.2, h5, ?_⟩
            · intro j hj
              refine ⟨(h3 j hj).1, ?_⟩
              intro svc rem2 ph2 remT2 hpc2
              cases hpc2
            · intro hm
              obtain ⟨ha, hb⟩ := h6 hm
              simp only [pcPass, hpc] at hb
              refine ⟨ha, ?_⟩
              have := hb.2
              simp only [List.length_nil] at this
              omega
        | cons svc rest =>
            cases hl : lookupJob s.reg r.jid with
            | none => simpa [runnerStep, hi, hpc, hl] using h
            | some j =>
                by_cases hst : j.status = Status.stopped
                · simp only [runnerStep, hi, hpc, hl]
                  rw [if_pos hst]
                  refine inv_set_update cat cap s _ i r _ hi rfl rfl
                    (fun _ _ => rfl) (fun _ _ => rfl) (fun _ _ => rfl) (fun u hu _ => hu) ?_ h
                  simp only [RInv, pcProv, pcPass]
                  refine ⟨h1, h2, ?_, trivial, h5, ?_⟩
                  · intro j2 hj2
                    refine ⟨(h3 j2 hj2).1, ?_⟩
                    intro svc2 rem2 ph2 remT2 hpc2
                    cases hpc2
                  · intro hm
                    obtain ⟨ha, hb⟩ := h6 hm
                    simp only [pcPass, hpc] at hb
                    refine ⟨ha, ?_⟩
                    have := hb.2
                    simp only [List.length_cons] at this
                    omega
                · by_cases hmax : r.maxRequests ≤ j.sent
                  · simp only [runnerStep, hi, hpc, hl]
                    rw [if_neg hst, if_pos hmax]
                    refine inv_set_update cat cap s _ i r _ hi rfl rfl
                      (fun _ _ => rfl) (fun _ _ => rfl) (fun _ _ => rfl) (fun u hu _ => hu) ?_ h
                    simp only [RInv, pcProv, pcPass]
                    refine ⟨h1, h2, ?_, h4.2, h5, ?_⟩
                    · intro j2 hj2
                      refine ⟨(h3 j2 hj2).1, ?_⟩
                      intro svc2 rem2 ph2 remT2 hpc2
                      cases hpc2
                    · intro hm
                      obtain ⟨ha, hb⟩ := h6 hm
                      simp only [pcPass, hpc] at hb
                      refine ⟨ha, ?_⟩
                      have := hb.2
                      simp only [List.length_cons] at this
                      omega
                  · simp only [runnerStep, hi, hpc, hl]
                    rw [if_neg hst, if_neg hmax]
                    refine inv_set_update cat cap s _ i r _ hi rfl rfl
                      (fun _ _ => rfl) (fun _ _ => rfl) (fun _ _ => rfl) (fun u hu _ => hu) ?_ h
                    simp only [RInv, pcProv, pcPass]
                    refine ⟨h1, h2, ?_, h4, h5, ?_⟩
                    · intro j2 hj2
                      rw [hl] at hj2
                      injection hj2 with hj3
                      have hs : j2.sent = j.sent := by rw [← hj3]
                      refine ⟨by omega, ?_⟩
                      intro svc2 rem2 ph2 remT2 hpc2
                      omega
                    · intro hm
                      obtain ⟨ha, hb⟩ := h6 hm
                      simp only [pcPass, hpc] at hb
                      refine ⟨ha, hb.1, ?_⟩
                      have := hb.2
                      simp only [List.length_cons] at this
                      omega
    | acquireSpawn svc rest ph remT =>
        simp only [pcProv, hpc] at h4
        by_cases hsem : r.sem = 0
        · simp only [runnerStep, hi, hpc]
          rw [if_pos hsem]
          exact h
        · simp only [runnerStep, hi, hpc]
          rw [if_neg hsem]
          refine inv_set_update cat cap s _ i r _ hi rfl rfl
            (fun _ _ => rfl)
            (fun jid2 hne => countJ_snoc_ne r.jid jid2 s.pending svc ph (Ne.symm hne))
            (fun jid2 hne => countJ_snoc_ne r.jid jid2 s.history svc ph (Ne.symm hne))
            ?_ ?_ h
          · intro u hu hju
            rcases List.mem_append.mp hu with hu2 | hu2
            · exact hu2
            · rw [List.mem_singleton.mp hu2] at hju
              exact absurd rfl hju
          · simp only [RInv, pcProv, pcPass]
            rw [countJ_snoc_self, countJ_snoc_self]
            refine ⟨by omega, h2, ?_, h4, ?_, ?_⟩
            · intro j hj
              have hb := (h3 j hj).2 svc rest ph remT hpc
              refine ⟨by omega, ?_⟩
              intro svc2 rem2 ph2 remT2 hpc2
              cases hpc2
            · intro u hu hju
              rcases List.mem_append.mp hu with hu2 | hu2
              · exact h5 u hu2 hju
              · rw [List.mem_singleton.mp hu2]
                exact ⟨h4.1.1, h4.1.2⟩
            · intro hm
              obtain ⟨ha, hb⟩ := h6 hm
              simp only [pcPass, hpc] at hb
              refine ⟨?_, hb.1, ?_⟩
              · intro u hu hju
                rcases List.mem_append.mp hu with hu2 | hu2
                · exact ha u hu2 hju
                · rw [List.mem_singleton.mp hu2]
                  exact hb.1
              · have := hb.2
                omega
    | passEnd remT =>
        simp only [pcProv, hpc] at h4
        by_cases hmode : r.mode = "Nuclear"
        · simp only [runnerStep, hi, hpc]
          rw [if_pos hmode]
          refine inv_set_update cat cap s _ i r _ hi rfl rfl
            (fun _ _ => rfl) (fun _ _ => rfl) (fun _ _ => rfl) (fun u hu _ => hu) ?_ h
          simp only [RInv, pcProv, pcPass]
          refine ⟨h1, h2, ?_, h4, h5, ?_⟩
          · intro j hj
            refine ⟨(h3 j hj).1, ?_⟩
            intro svc rem2 ph2 remT2 hpc2
            cases hpc2
          · intro hm
            exact absurd hmode hm
        · simp only [runnerStep, hi, hpc]
          rw [if_neg hmode]
          refine inv_set_update cat cap s _ i r _ hi rfl rfl
            (fun _ _ => rfl) (fun _ _ => rfl) (fun _ _ => rfl) (fun u hu _ => hu) ?_ h
          simp only [RInv, pcProv, pcPass]
          refine ⟨h1, h2, ?_, trivial, h5, ?_⟩
          · intro j hj
            refine ⟨(h3 j hj).1, ?_⟩
            intro svc rem2 ph2 remT2 hpc2
            cases hpc2
          · intro hm
            obtain ⟨ha, hb⟩ := h6 hm
            simp only [pcPass, hpc] at hb
            exact ⟨ha, hb⟩
    | drain k =>
        cases k with
        | zero =>
            simp only [runnerStep, hi, hpc]
            refine inv_set_update cat cap s _ i r _ hi rfl rfl
              (fun _ _ => rfl) (fun _ _ => rfl) (fun _ _ => rfl) (fun u hu _ => hu) ?_ h
            simp only [RInv, pcProv, pcPass]
            refine ⟨h1, h2, ?_, trivial, h5, ?_⟩
            · intro j hj
              refine ⟨(h3 j hj).1, ?_⟩
              intro svc rem2 ph2 remT2 hpc2
              cases hpc2
            · intro hm
              obtain ⟨ha, hb⟩ := h6 hm
              simp only [pcPass, hpc] at hb
              exact ⟨ha, hb⟩
        | succ k2 =>
            by_cases hsem : r.sem = 0
            · simp only [runnerStep, hi, hpc]
              rw [if_pos hsem]
              exact h
            · simp only [runnerStep, hi, hpc]
              rw [if_neg hsem]
              refine inv_set_update cat cap s _ i r _ hi rfl rfl
                (fun _ _ => rfl) (fun _ _ => rfl) (fun _ _ => rfl) (fun u hu _ => hu) ?_ h
              simp only [RInv, pcProv, pcPass]
              refine ⟨by omega, h2, ?_, trivial, h5, ?_⟩
              · intro j hj
                refine ⟨(h3 j hj).1, ?_⟩
                intro svc rem2 ph2 remT2 hpc2
                cases hpc2
              · intro hm
                obtain ⟨ha, hb⟩ := h6 hm
                simp only [pcPass, hpc] at hb
                exact ⟨ha, hb⟩
    | finalize =>
        simp only [runnerStep, hi, hpc]
        refine inv_set_update cat cap s _ i r _ hi rfl rfl
          (fun jid2 hne => lookup_update_ne _ _ (Ne.symm hne))
          (fun _ _ => rfl) (fun _ _ => rfl) (fun u hu _ => hu) ?_ h
        simp only [RInv, pcProv, pcPass]
        refine ⟨h1, h2, ?_, trivial, h5, ?_⟩
        · intro j hj
          rw [lookup_update_self] at hj
          cases hl : lookupJob s.reg r.jid with
          | none => rw [hl] at hj; cases hj
          | some j0 =>
              rw [hl] at hj
              injection hj with hj2
              have hs : j.sent = j0.sent := by
                rw [← hj2]
                by_cases hc : j0.status = Status.running <;> simp [hc]
              have hb0 := (h3 j0 hl).1
              refine ⟨by omega, ?_⟩
              intro svc rem ph remT hpc2
              cases hpc2
        · intro hm
          obtain ⟨ha, hb⟩ := h6 hm
          simp only [pcPass, hpc] at hb
          exact ⟨ha, hb⟩
    | finished =>
        simpa [runnerStep, hi, hpc] using h

theorem pcProv_sem (r : Runner) (n : Nat) : pcProv { r with sem := n } = pcProv r := rfl

theorem pcPass_sem (a b : Nat) (r : Runner) (n : Nat) :
    pcPass a b { r with sem := n } = pcPass a b r := rfl

/-- Completion of an in-flight dispatch unit preserves the invariant. -/
theorem inv_completeStep (cat : List Service) (cap : Nat) (s : ProcState) (i : Nat) (o : Outcome)
    (h : Inv cat cap s) : Inv cat cap (completeStep s i o) := by
  cases hu : s.pending[i]? with
  | none => simpa [completeStep, hu] using h
  | some u =>
    obtain ⟨hn, hall⟩ := h
    simp only [completeStep, hu]
    refine ⟨by rw [jid_releaseSem]; exact hn, ?_⟩
    intro k r hk
    rw [releaseSem_getElem] at hk
    cases hr0 : s.runners[k]? with
    | none => rw [hr0] at hk; cases hk
    | some r0 =>
        rw [hr0] at hk
        simp only [Option.map_some'] at hk
        by_cases hju : r0.jid = u.jid
        · rw [if_pos hju] at hk
          injection hk with hk2
          subst hk2
          obtain ⟨h1, h2, h3, h4, h5, h6⟩ := hall k r0 hr0
          have hcnt := countJ_eraseIdx r0.jid s.pending i u hu
          rw [if_pos (Eq.symm hju)] at hcnt
          simp only [RInv, pcProv_sem, pcPass_sem]
          refine ⟨by omega, h2, ?_, h4, h5, h6⟩
          intro j hj
          rw [hju, lookup_update_self] at hj
          cases hl : lookupJob s.reg u.jid with
          | none => rw [hl] at hj; cases hj
          | some j0 =>
              rw [hl] at hj
              injection hj with hj2
              have hl0 : lookupJob s.reg r0.jid = some j0 := by rw [hju]; exact hl
              have hb0 := (h3 j0 hl0).1
              have hsf := fireUpdate_sent u.svc o j0
              have hs : j.sent = j0.sent ∨ j.sent = j0.sent + 1 := by
                rw [← hj2]
                exact hsf
              refine ⟨by omega, ?_⟩
              intro svc2 rem2 ph2 remT2 hpc2
              have hb2 := (h3 j0 hl0).2 svc2 rem2 ph2 remT2 hpc2
              omega
        · rw [if_neg hju] at hk
          injection hk with hk2
          subst hk2
          refine rinv_mono cat cap s _ r0 ?_ ?_ rfl (fun u2 hu2 _ => hu2) (hall k r0 hr0)
          · intro j hj
            rw [lookup_update_ne _ _ (fun he => hju (Eq.symm he))] at hj
            exact ⟨j, hj, rfl⟩
          · show countJ r0.jid (s.pending.eraseIdx i) = countJ r0.jid s.pending
            have := countJ_eraseIdx r0.jid s.pending i u hu
            rw [if_neg (fun he => hju (Eq.symm he))] at this
            omega

/-- An external stop request preserves the invariant. -/
theorem inv_stopStep (cat : List Service) (cap : Nat) (s : ProcState) (jid0 : String)
    (h : Inv cat cap s) : Inv cat cap (stopStep s jid0) := by
  cases hl : lookupJob s.reg jid0 with
  | none => simpa [stopStep, hl] using h
  | some j0 =>
      simp only [stopStep, hl]
      obtain ⟨hn, hall⟩ := h
      refine ⟨hn, ?_⟩
      intro k r hk
      refine rinv_mono cat cap s _ r ?_ rfl rfl (fun u hu _ => hu) (hall k r hk)
      intro j hj
      by_cases hje : r.jid = jid0
      · rw [hje, lookup_update_self, hl] at hj
        injection hj with hj2
        exact ⟨j0, by rw [hje]; exact hl, by rw [← hj2]⟩
      · rw [lookup_update_ne _ _ (Ne.symm hje)] at hj
        exact ⟨j, hj, rfl⟩

/-- Every schedulable event preserves the invariant. -/
theorem inv_step (cat : List Service) (cap : Nat) (s : ProcState) (a : Action)
    (h : Inv cat cap s) : Inv cat cap (step cat cap s a) := by
  cases a with
  | runner i => exact inv_runnerStep cat cap s i h
  | complete i o => exact inv_completeStep cat cap s i o h
  | stopReq jid => exact inv_stopStep cat cap s jid h

/-- The invariant holds along every schedule. -/
theorem inv_exec (cat : List Service) (cap : Nat) (s : ProcState) (acts : List Action)
    (h : Inv cat cap s) : Inv cat cap (exec cat cap s acts) := by
  induction acts generalizing s with
  | nil => exact h
  | cons a acts ih => exact ih _ (inv_step cat cap s a h)

/-- In the freshly started batch, the registry holds `mkJob sp` at `sp.jid`. -/
theorem lookup_mkInit (cap : Nat) (specs : List JobSpec) {sp : JobSpec}
    (hn : (specs.map JobSpec.jid).Nodup) (hmem : sp ∈ specs) :
    lookupJob (mkInit cap specs).reg sp.jid = some (mkJob sp) := by
  simp only [mkInit]
  induction specs with
  | nil => cases hmem
  | cons sp0 rest ih =>
      rcases List.mem_cons.mp hmem with he | hmem2
      · subst he
        simp [lookupJob]
      · have hne : sp0.jid ≠ sp.jid := by
          intro he
          have : sp.jid ∈ rest.map JobSpec.jid := List.mem_map_of_mem JobSpec.jid hmem2
          rw [← he] at this
          exact (List.nodup_cons.mp hn).1 this
        simp only [List.map_cons, lookupJob, if_neg hne]
        exact ih (List.nodup_cons.mp hn).2 hmem2

/-- The invariant holds of the initial state of any batch of jobs with
pairwise distinct ids. -/
theorem inv_mkInit (cat : List Service) (cap : Nat) (specs : List JobSpec)
    (hn : (specs.map JobSpec.jid).Nodup) : Inv cat cap (mkInit cap specs) := by
  constructor
  · have : (mkInit cap specs).runners.map Runner.jid = specs.map JobSpec.jid := by
      show (specs.map (mkRunner cap)).map Runner.jid = specs.map JobSpec.jid
      rw [List.map_map]
      exact List.map_congr_left fun a _ => rfl
    rw [this]
    exact hn
  · intro i r hi
    simp only [mkInit, List.getElem?_map] at hi
    cases hsp : specs[i]? with
    | none => rw [hsp] at hi; cases hi
    | some sp =>
        rw [hsp] at hi
        injection hi with hi2
        subst hi2
        have hmem : sp ∈ specs := List.mem_iff_getElem?.mpr ⟨i, hsp⟩
        simp only [RInv, pcProv, pcPass, mkRunner]
        refine ⟨?_, ?_, ?_, trivial, ?_, ?_⟩
        · simp [mkInit, countJ]
        · simp
        · intro j hj
          rw [lookup_mkInit cap specs hn hmem] at hj
          injection hj with hj2
          subst hj2
          simp only [mkInit, mkJob]
          refine ⟨by simp [countJ], ?_⟩
          intro svc rem ph remT hpc2
          cases hpc2
        · intro u hu
          simp only [mkInit] at hu
          cases hu
        · intro hm
          constructor
          · intro u hu
            simp only [mkInit] at hu
            cases hu
          · simp [mkInit, countJ]



/-! ### Frame lemmas: what a step can and cannot change -/

/-- The immutable identity of a runner thread: its `run_job` arguments. -/
def fixedPart (r : Runner) : String × List String × String × Nat :=
  (r.jid, r.targets, r.mode, r.maxRequests)

theorem fixedPart_releaseSem (rs : List Runner) (jid : String) :
    (releaseSem rs jid).map fixedPart = rs.map fixedPart := by
  unfold releaseSem
  rw [List.map_map]
  apply List.map_congr_left
  intro r _
  by_cases h : r.jid = jid <;> simp [h, fixedPart]

/-- No event changes any runner's job id, targets, mode or ceiling. -/
theorem step_runners_fixed (cat : List Service) (cap : Nat) (s : ProcState) (a : Action) :
    (step cat cap s a).runners.map fixedPart = s.runners.map fixedPart := by
  cases a with
  | stopReq jid =>
      simp only [step, stopStep]
      cases lookupJob s.reg jid <;> rfl
  | complete i o =>
      simp only [step, completeStep]
      cases s.pending[i]? with
      | none => rfl
      | some u => exact fixedPart_releaseSem s.runners u.jid
  | runner i =>
      simp only [step]
      cases hi : s.runners[i]? with
      | none => simp [runnerStep, hi]
      | some r =>
        cases hpc : r.pc with
        | load =>
            by_cases hcat : cat.isEmpty
            · simp only [runnerStep, hi, hpc]
              rw [if_pos hcat]
              exact map_set_eq fixedPart s.runners i _ hi rfl
            · simp only [runnerStep, hi, hpc]
              rw [if_neg hcat]
              exact map_set_eq fixedPart s.runners i _ hi rfl
        | nextTarget rem =>
            cases rem with
            | nil =>
                simp only [runnerStep, hi, hpc]
                exact map_set_eq fixedPart s.runners i _ hi rfl
            | cons t rest =>
                by_cases hlen : (pyStrip t).length < 10
                · simp only [runnerStep, hi, hpc]
                  rw [if_pos hlen]
                  exact map_set_eq fixedPart s.runners i _ hi rfl
                · simp only [runnerStep, hi, hpc]
                  rw [if_neg hlen]
                  exact map_set_eq fixedPart s.runners i _ hi rfl
        | checkSvc remSvcs ph remT =>
            cases remSvcs with
            | nil =>
                simp only [runnerStep, hi, hpc]
                exact map_set_eq fixedPart s.runners i _ hi rfl
            | cons svc rest =>
                cases hl : lookupJob s.reg r.jid with
                | none => simp [runnerStep, hi, hpc, hl]
                | some j =>
                    by_cases hst : j.status = Status.stopped
                    · simp only [runnerStep, hi, hpc, hl]
                      rw [if_pos hst]
                      exact map_set_eq fixedPart s.runners i _ hi rfl
                    · by_cases hmax : r.maxRequests ≤ j.sent
                      · simp only [runnerStep, hi, hpc, hl]
                        rw [if_neg hst, if_pos hmax]
                        exact map_set_eq fixedPart s.runners i _ hi rfl
                      · simp only [runnerStep, hi, hpc, hl]
                        rw [if_neg hst, if_neg hmax]
                        exact map_set_eq fixedPart s.runners i _ hi rfl
        | acquireSpawn svc rest ph remT =>
            by_cases hsem : r.sem = 0
            · simp only [runnerStep, hi, hpc]
              rw [if_pos hsem]
            · simp only [runnerStep, hi, hpc]
              rw [if_neg hsem]
              exact map_set_eq fixedPart s.runners i _ hi rfl
        | passEnd remT =>
            by_cases hmode : r.mode = "Nuclear"
            · simp only [runnerStep, hi, hpc]
              rw [if_pos hmode]
              exact map_set_eq fixedPart s.runners i _ hi rfl
            · simp only [runnerStep, hi, hpc]
              rw [if_neg hmode]
              exact map_set_eq fixedPart s.runners i _ hi rfl
        | drain k =>
            cases k with
            | zero =>
                simp only [runnerStep, hi, hpc]
                exact map_set_eq fixedPart s.runners i _ hi rfl
            | succ k2 =>
                by_cases hsem : r.sem = 0
                · simp only [runnerStep, hi, hpc]
                  rw [if_pos hsem]
                · simp only [runnerStep, hi, hpc]
                  rw [if_neg hsem]
                  exact map_set_eq fixedPart s.runners i _ hi rfl
        | finalize =>
            simp only [runnerStep, hi, hpc]
            exact map_set_eq fixedPart s.runners i _ hi rfl
        | finished => simp [runnerStep, hi, hpc]

theorem exec_runners_fixed (cat : List Service) (cap : Nat) (s : ProcState)
    (acts : List Action) :
    (exec cat cap s acts).runners.map fixedPart = s.runners.map fixedPart := by
  induction acts generalizing s with
  | nil => rfl
  | cons a acts ih => rw [exec, ih, step_runners_fixed]

/-- Shape of the registry after one event: untouched, or a single in-place
update that grows the sent counter by at most one and never writes the status
"running". -/
theorem step_reg_shape (cat : List Service) (cap : Nat) (s : ProcState) (a : Action) :
    (step cat cap s a).reg = s.reg ∨
    ∃ f jid2, (step cat cap s a).reg = updateJob f s.reg jid2 ∧
      (∀ j : JobRecord, (f j).sent = j.sent ∨ (f j).sent = j.sent + 1) ∧
      (∀ j : JobRecord, (f j).status = j.status ∨ (f j).status ≠ Status.running) := by
  cases a with
  | stopReq jid =>
      simp only [step, stopStep]
      cases lookupJob s.reg jid with
      | none => left; rfl
      | some j0 =>
          right
          refine ⟨_, jid, rfl, fun j => Or.inl rfl, fun j => Or.inr ?_⟩
          intro hc
          cases hc
  | complete i o =>
      simp only [step, completeStep]
      cases s.pending[i]? with
      | none => left; rfl
      | some u =>
          right
          refine ⟨_, u.jid, rfl, fun j => fireUpdate_sent u.svc o j, fun j => Or.inl ?_⟩
          cases o with
          | transportErr => rfl
          | httpStatus code =>
              by_cases hc : code < 300
              · simp [fireUpdate, hc]
              · by_cases h4 : code = 403 <;> simp [fireUpdate, hc, h4]
  | runner i =>
      simp only [step]
      cases hi : s.runners[i]? with
      | none => left; simp [runnerStep, hi]
      | some r =>
        cases hpc : r.pc with
        | load =>
            by_cases hcat : cat.isEmpty
            · simp only [runnerStep, hi, hpc]
              rw [if_pos hcat]
              right
              refine ⟨_, r.jid, rfl, fun j => Or.inl rfl, fun j => Or.inr ?_⟩
              intro hc
              cases hc
            · simp only [runnerStep, hi, hpc]
              rw [if_neg hcat]
              left; rfl
        | nextTarget rem =>
            cases rem with
            | nil => left; simp [runnerStep, hi, hpc]
            | cons t rest =>
                by_cases hlen : (pyStrip t).length < 10
                · simp only [runnerStep, hi, hpc]
                  rw [if_pos hlen]
                  left; rfl
                · simp only [runnerStep, hi, hpc]
                  rw [if_neg hlen]
                  left; rfl
        | checkSvc remSvcs ph remT =>
            cases remSvcs with
            | nil => left; simp [runnerStep, hi, hpc]
            | cons svc rest =>
                cases hl : lookupJob s.reg r.jid with
                | none => left; simp [runnerStep, hi, hpc, hl]
                | some j =>
                    by_cases hst : j.status = Status.stopped
                    · simp only [runnerStep, hi, hpc, hl]
                      rw [if_pos hst]
                      left; rfl
                    · by_cases hmax : r.maxRequests ≤ j.sent
                      · simp only [runnerStep, hi, hpc, hl]
                        rw [if_neg hst, if_pos hmax]
                        left; rfl
                      · simp only [runnerStep, hi, hpc, hl]
                        rw [if_neg hst, if_neg hmax]
                        left; rfl
        | acquireSpawn svc rest ph remT =>
            by_cases hsem : r.sem = 0
            · simp only [runnerStep, hi, hpc]
              rw [if_pos hsem]
              left; rfl
            · simp only [runnerStep, hi, hpc]
              rw [if_neg hsem]
              left; rfl
        | passEnd remT =>
            by_cases hmode : r.mode = "Nuclear"
            · simp only [runnerStep, hi, hpc]
              rw [if_pos hmode]
              left; rfl
            · simp only [runnerStep, hi, hpc]
              rw [if_neg hmode]
              left; rfl
        | drain k =>
            cases k with
            | zero => left; simp [runnerStep, hi, hpc]
            | succ k2 =>
                by_cases hsem : r.sem = 0
                · simp only [runnerStep, hi, hpc]
                  rw [if_pos hsem]
                  left; rfl
                · simp only [runnerStep, hi, hpc]
                  rw [if_neg hsem]
                  left; rfl
        | finalize =>
            simp only [runnerStep, hi, hpc]
            right
            refine ⟨_, r.jid, rfl, fun j => Or.inl ?_, fun j => ?_⟩
            · by_cases hc : j.status = Status.running <;> simp [hc]
            · by_cases hc : j.status = Status.running
              · right
                simp only [hc, if_pos]
                intro hd
                cases hd
              · left
                simp [hc]
        | finished => left; simp [runnerStep, hi, hpc]

/-- The sent counter of any job never decreases across one event. -/
theorem sentOf_step_le (cat : List Service) (cap : Nat) (s : ProcState) (a : Action)
    (jid : String) : sentOf s jid ≤ sentOf (step cat cap s a) jid := by
  rcases step_reg_shape cat cap s a with hsh | ⟨f, jid2, hsh, hsent, _⟩
  · simp [sentOf, hsh]
  · simp only [sentOf, hsh]
    by_cases hje : jid2 = jid
    · subst hje
      rw [lookup_update_self]
      cases hl : lookupJob s.reg jid2 with
      | none => simp
      | some j =>
          simp only [Option.map_some']
          rcases hsent j with he | he <;> omega
    · rw [lookup_update_ne _ _ hje]

/-- The sent counter of any job never decreases across any schedule. -/
theorem sentOf_exec_le (cat : List Service) (cap : Nat) (s : ProcState)
    (acts : List Action) (jid : String) :
    sentOf s jid ≤ sentOf (exec cat cap s acts) jid := by
  induction acts generalizing s with
  | nil => exact le_refl _
  | cons a acts ih =>
      exact le_trans (sentOf_step_le cat cap s a jid) (ih (step cat cap s a))

/-- A job whose status is terminal never returns to "running" in one event. -/
theorem status_step_stable (cat : List Service) (cap : Nat) (s : ProcState) (a : Action)
    (jid : String) (st : Status) (hst : statusOf s jid = some st) (hr : st ≠ Status.running) :
    ∃ st2, statusOf (step cat cap s a) jid = some st2 ∧ st2 ≠ Status.running := by
  rcases step_reg_shape cat cap s a with hsh | ⟨f, jid2, hsh, _, hstat⟩
  · exact ⟨st, by simp only [statusOf, hsh]; exact hst, hr⟩
  · simp only [statusOf, hsh]
    by_cases hje : jid2 = jid
    · subst hje
      rw [lookup_update_self]
      simp only [statusOf] at hst
      cases hl : lookupJob s.reg jid2 with
      | none => rw [hl] at hst; cases hst
      | some j =>
          rw [hl] at hst
          injection hst with hst2
          refine ⟨(f j).status, by simp, ?_⟩
          rcases hstat j with he | he
          · rw [he, hst2]
            exact hr
          · exact he
    · rw [lookup_update_ne _ _ hje]
      exact ⟨st, hst, hr⟩

/-- A job whose status is terminal never returns to "running", ever. -/
theorem status_exec_stable (cat : List Service) (cap : Nat) (s : ProcState)
    (acts : List Action) (jid : String) (st : Status)
    (hst : statusOf s jid = some st) (hr : st ≠ Status.running) :
    ∃ st2, statusOf (exec cat cap s acts) jid = some st2 ∧ st2 ≠ Status.running := by
  induction acts generalizing s st with
  | nil => exact ⟨st, hst, hr⟩
  | cons a acts ih =>
      obtain ⟨st2, hst2, hr2⟩ := status_step_stable cat cap s a jid st hst hr
      exact ih _ st2 hst2 hr2


/-! ### Bridges from the invariant to per-job statements -/

/-- Runner `i` of a started batch keeps the arguments of spec `i` forever. -/
theorem final_runner (cat : List Service) (cap : Nat) (specs : List JobSpec)
    (acts : List Action) {i : Nat} {sp : JobSpec} (hi : specs[i]? = some sp) :
    ∃ r : Runner, (exec cat cap (mkInit cap specs) acts).runners[i]? = some r ∧
      r.jid = sp.jid ∧ r.targets = sp.targets ∧ r.mode = sp.mode ∧
      r.maxRequests = sp.maxReq := by
  have hmap := exec_runners_fixed cat cap (mkInit cap specs) acts
  have h0 : (mkInit cap specs).runners[i]? = some (mkRunner cap sp) := by
    simp only [mkInit, List.getElem?_map, hi, Option.map_some']
  have h1 : ((exec cat cap (mkInit cap specs) acts).runners.map fixedPart)[i]? =
      some (fixedPart (mkRunner cap sp)) := by
    rw [hmap, List.getElem?_map, h0, Option.map_some']
  rw [List.getElem?_map] at h1
  cases hr : (exec cat cap (mkInit cap specs) acts).runners[i]? with
  | none => rw [hr] at h1; cases h1
  | some r =>
      rw [hr] at h1
      injection h1 with h2
      simp only [fixedPart, mkRunner, Prod.mk.injEq] at h2
      exact ⟨r, rfl, h2.1, h2.2.1, h2.2.2.1, h2.2.2.2⟩

/-- The single-pass accounting always bounds the spawn count by the catalog
size. -/
theorem pcPass_count_le (catLen histCount : Nat) (r : Runner)
    (h : pcPass catLen histCount r) : histCount ≤ catLen := by
  cases hpc : r.pc with
  | load => simp only [pcPass, hpc] at h; omega
  | nextTarget rem =>
      simp only [pcPass, hpc] at h
      omega
  | checkSvc rem ph remT =>
      simp only [pcPass, hpc] at h
      obtain ⟨h1, h2⟩ := h
      omega
  | acquireSpawn svc rem ph remT =>
      simp only [pcPass, hpc] at h
      obtain ⟨h1, h2⟩ := h
      omega
  | passEnd remT => simp only [pcPass, hpc] at h; omega
  | drain k => simp only [pcPass, hpc] at h; omega
  | finalize => simp only [pcPass, hpc] at h; omega
  | finished => simp only [pcPass, hpc] at h; omega

/-! ### The empty-catalog run -/

/-- State of a one-job batch after its runner observed the empty catalog:
status "done", the single explanatory log entry, nothing ever dispatched. -/
def donePost (cap : Nat) (sp : JobSpec) : ProcState :=
  { reg := [(sp.jid, { mkJob sp with status := Status.done, logs := [noServicesLog] })],
    runners := [{ mkRunner cap sp with pc := RunnerPC.finished }],
    pending := [], history := [] }

theorem step_mkInit_empty (cap : Nat) (sp : JobSpec) :
    step [] cap (mkInit cap [sp]) (Action.runner 0) = donePost cap sp := by
  simp [step, runnerStep, mkInit, mkRunner, donePost, updateJob, List.set]

theorem step_mkInit_other (cap : Nat) (sp : JobSpec) (a : Action)
    (hr0 : a ≠ Action.runner 0) (hstop : ∀ jid, a ≠ Action.stopReq jid) :
    step [] cap (mkInit cap [sp]) a = mkInit cap [sp] := by
  cases a with
  | runner i =>
      cases i with
      | zero => exact absurd rfl hr0
      | succ n => simp [step, runnerStep, mkInit]
  | complete i o => simp [step, completeStep, mkInit]
  | stopReq jid => exact absurd rfl (hstop jid)

theorem step_donePost (cap : Nat) (sp : JobSpec) (a : Action)
    (hstop : ∀ jid, a ≠ Action.stopReq jid) :
    step [] cap (donePost cap sp) a = donePost cap sp := by
  cases a with
  | runner i =>
      cases i with
      | zero => simp [step, runnerStep, donePost, mkRunner]
      | succ n => simp [step, runnerStep, donePost]
  | complete i o => simp [step, completeStep, donePost]
  | stopReq jid => exact absurd rfl (hstop jid)

theorem exec_donePost (cap : Nat) (sp : JobSpec) (acts : List Action)
    (hstop : ∀ jid, Action.stopReq jid ∉ acts) :
    exec [] cap (donePost cap sp) acts = donePost cap sp := by
  induction acts with
  | nil => rfl
  | cons a acts ih =>
      rw [exec, step_donePost cap sp a
        (fun jid he => hstop jid (by rw [← he]; exact List.mem_cons_self a acts))]
      exact ih fun jid hmem => hstop jid (List.mem_cons_of_mem a hmem)

/-- Dichotomy for a one-job batch over the empty catalog: the run is frozen at
its initial state until the runner is first scheduled, after which it is
frozen in the degraded terminal state. -/
theorem exec_empty_cat (cap : Nat) (sp : JobSpec) (acts : List Action)
    (hstop : ∀ jid, Action.stopReq jid ∉ acts) :
    exec [] cap (mkInit cap [sp]) acts =
      if Action.runner 0 ∈ acts then donePost cap sp else mkInit cap [sp] := by
  induction acts with
  | nil => simp [exec]
  | cons a acts ih =>
      by_cases ha : a = Action.runner 0
      · subst ha
        rw [exec, step_mkInit_empty,
          exec_donePost cap sp acts (fun jid hmem => hstop jid (List.mem_cons_of_mem _ hmem)),
          if_pos (List.mem_cons_self _ _)]
      · rw [exec, step_mkInit_other cap sp a ha
          (fun jid he => hstop jid (by rw [← he]; exact List.mem_cons_self a acts))]
        rw [ih fun jid hmem => hstop jid (List.mem_cons_of_mem a hmem)]
        by_cases hmem : Action.runner 0 ∈ acts
        · rw [if_pos hmem, if_pos (List.mem_cons_of_mem a hmem)]
        · rw [if_neg hmem, if_neg ?_]
          intro hc
          rcases List.mem_cons.mp hc with he | he
          · exact ha (Eq.symm he)
          · exact hmem he


set_option maxRecDepth 8000

/-! ### Concrete fixtures for counterexamples and witnesses -/

/-- A catalog entry with all fields present. -/
def svcA : Service :=
  { url := "http://a.example/send", method := some "POST", data := some "to=target",
    name := some "alpha" }

/-- A catalog entry relying on the source's defaults (`method` "POST", name "svc"). -/
def svcB : Service :=
  { url := "http://b.example/send", method := none, data := none, name := none }

/-- One job, one valid target, ceiling 1. -/
def jobSpecA : JobSpec :=
  { jid := "j1", targets := ["9977885544"], mode := "Normal", delay := 0.5,
    maxReq := 1, startedAt := "t0" }

/-- A second concurrent job. -/
def jobSpecB : JobSpec :=
  { jid := "j2", targets := ["8877665544"], mode := "Normal", delay := 0.5,
    maxReq := 5, startedAt := "t1" }

/-- First target too short (length 3), second valid. -/
def jobSpecSkip : JobSpec :=
  { jid := "j1", targets := ["123", "9977885544"], mode := "Normal", delay := 0.5,
    maxReq := 10, startedAt := "t0" }

/-- High ceiling, used for the log-overflow run. -/
def jobSpecLogs : JobSpec :=
  { jid := "j1", targets := ["9977885544"], mode := "Normal", delay := 0.5,
    maxReq := 100, startedAt := "t0" }

/-- Schedule exhibiting the ceiling overrun: the runner checks the ceiling for
the second endpoint while the first unit is still in flight (reading
`sent = 0`), blocks on the semaphore, and completes the stale submission after
the first unit has already raised `sent` to the ceiling. -/
def raceTrace : List Action :=
  [Action.runner 0, Action.runner 0, Action.runner 0, Action.runner 0, Action.runner 0,
   Action.complete 0 (Outcome.httpStatus 200), Action.runner 0,
   Action.complete 0 (Outcome.httpStatus 200)]

/-- Both runners submit their first unit; no completions in between. -/
def twoJobsTrace : List Action :=
  [Action.runner 0, Action.runner 0, Action.runner 0, Action.runner 0,
   Action.runner 1, Action.runner 1, Action.runner 1, Action.runner 1]

/-- Load, skip the short target, enter the pass for the valid one, submit once. -/
def skipTrace : List Action :=
  [Action.runner 0, Action.runner 0, Action.runner 0, Action.runner 0, Action.runner 0]

/-- A 31-endpoint catalog. -/
def cat31 : List Service := List.replicate 31 svcA

/-- Each endpoint's unit is dispatched and fails with a transport error,
31 times in a row. -/
def errTrace : List Action :=
  [Action.runner 0, Action.runner 0] ++
    (List.replicate 31
      [Action.runner 0, Action.runner 0, Action.complete 0 Outcome.transportErr]).flatten

/-- A registry holding one job, as seen by `/health`. -/
def demoReg : Registry := [("j1", mkJob jobSpecA)]

/-! ### C1 — sent counter bounds and monotonicity -/

/-- C1 (counterexample): the claim "sentCount ≤ maxRequests at every
observation point" fails.  With limiter capacity 1 and a job whose ceiling is
`maxRequests = 1`, over a 2-endpoint catalog, the runner re-reads `sent = 0`
for the second endpoint while the first unit is still in flight, so the stale
decision stands and both units increment: the job record reaches
`sentCount = 2 > 1 = maxRequests`. -/
theorem C1_ceiling_exceeded :
    sentOf (exec [svcA, svcB] 1 (mkInit 1 [jobSpecA]) raceTrace) "j1" = 2 ∧
    (lookupJob (exec [svcA, svcB] 1 (mkInit 1 [jobSpecA]) raceTrace).reg "j1").map
        JobRecord.maxRequests = some 1 ∧
    ¬(2 ≤ 1) :=
  ⟨by decide, by decide, by decide⟩

/-- C1 (amended): for every started job and along every schedule,
`0 ≤ sentCount ≤ maxRequests + C` (where `C` is the limiter capacity
`MAX_THREADS`; the slack is the number of in-flight units a stale ceiling read
can let through), and `sentCount` is monotonically non-decreasing over the
job's lifetime.  The lower bound `0 ≤ sentCount` holds by the `Nat`
embedding of the counter. -/
theorem C1_sent_bounds :
    (∀ (cat : List Service) (cap : Nat) (specs : List JobSpec) (acts : List Action)
        (sp : JobSpec) (j : JobRecord),
        (specs.map JobSpec.jid).Nodup → sp ∈ specs →
        lookupJob (exec cat cap (mkInit cap specs) acts).reg sp.jid = some j →
        j.sent ≤ sp.maxReq + cap) ∧
    (∀ (cat : List Service) (cap : Nat) (s : ProcState) (acts : List Action) (jid : String),
        sentOf s jid ≤ sentOf (exec cat cap s acts) jid) := by
  constructor
  · intro cat cap specs acts sp j hn hmem hj
    obtain ⟨i, hi⟩ := List.mem_iff_getElem?.mp hmem
    obtain ⟨r, hr, hjid, _, _, hmax⟩ := final_runner cat cap specs acts hi
    have hinv := inv_exec cat cap (mkInit cap specs) acts (inv_mkInit cat cap specs hn)
    obtain ⟨h1, _, h3, _, _, _⟩ := hinv.2 i r hr
    have hb := (h3 j (by rw [hjid]; exact hj)).1
    omega
  · exact fun cat cap s acts jid => sentOf_exec_le cat cap s acts jid

/-- C1 (witness): the amended bound and the monotonicity instantiated on a
concrete one-job batch. -/
theorem C1_sent_bounds_check :
    ((([jobSpecA].map JobSpec.jid).Nodup ∧ jobSpecA ∈ [jobSpecA] ∧
        lookupJob (exec [] 1 (mkInit 1 [jobSpecA]) []).reg jobSpecA.jid =
          some (mkJob jobSpecA)) ∧
      (mkJob jobSpecA).sent ≤ jobSpecA.maxReq + 1) ∧
    sentOf (mkInit 1 [jobSpecA]) "j1" ≤ sentOf (exec [] 1 (mkInit 1 [jobSpecA]) []) "j1" :=
  ⟨⟨⟨by decide, List.mem_singleton.mpr rfl, rfl⟩,
      C1_sent_bounds.1 [] 1 [jobSpecA] [] jobSpecA (mkJob jobSpecA) (by decide)
        (List.mem_singleton.mpr rfl) rfl⟩,
    C1_sent_bounds.2 [] 1 (mkInit 1 [jobSpecA]) [] "j1"⟩

/-! ### C2 — log ring bound -/

/-- C2 (code evaluation at the failing input): the transport-error path of
`fire` (line 78) prepends its log entry without the 30-entry trim that the
status paths apply (line 74), contradicting the "Keep last 30 logs" intent
stated in the source.  After 31 consecutive transport failures the job's log
list has 31 entries, violating `logRing.length ≤ 30`. -/
theorem C2_log_overflow :
    (logsOf (exec cat31 10 (mkInit 10 [jobSpecLogs]) errTrace) "j1").length = 31 ∧
    ¬((logsOf (exec cat31 10 (mkInit 10 [jobSpecLogs]) errTrace) "j1").length ≤ 30) := by
  have h : (logsOf (exec cat31 10 (mkInit 10 [jobSpecLogs]) errTrace) "j1").length = 31 := by
    decide
  exact ⟨h, by omega⟩

/-! ### C3 — terminal status stability -/

/-- C3 (counterexample): a status field holding 'done' is not immutable: the
stop route (line 224) overwrites it unconditionally, so a job that completed
via the empty-catalog path and then receives a stop request moves from 'done'
to 'stopped'. -/
theorem C3_done_then_stopped :
    statusOf (exec [] 10 (mkInit 10 [jobSpecA]) [Action.runner 0]) "j1" =
      some Status.done ∧
    statusOf (exec [] 10 (mkInit 10 [jobSpecA]) [Action.runner 0, Action.stopReq "j1"]) "j1" =
      some Status.stopped ∧
    Status.done ≠ Status.stopped :=
  ⟨by decide, by decide, by decide⟩

/-- C3 (amended): once a job's status field holds a terminal value ('stopped'
or 'done'), no subsequent operation ever sets it back to 'running'; the job
stays present and terminal.  (The terminal values can still overwrite each
other: a stop request turns 'done' into 'stopped', and the empty-catalog path
turns 'stopped' into 'done' — see the counterexample.) -/
theorem C3_terminal_stability :
    ∀ (cat : List Service) (cap : Nat) (s : ProcState) (acts : List Action)
      (jid : String) (st : Status),
      statusOf s jid = some st → st ≠ Status.running →
      ∃ st2, statusOf (exec cat cap s acts) jid = some st2 ∧ st2 ≠ Status.running :=
  fun cat cap s acts jid st h1 h2 => status_exec_stable cat cap s acts jid st h1 h2

/-- C3 (witness): terminal stability instantiated after a concrete run that
reached 'done' and then receives a stop request. -/
theorem C3_terminal_stability_check :
    (statusOf (exec [] 10 (mkInit 10 [jobSpecA]) [Action.runner 0]) "j1" =
        some Status.done ∧
      Status.done ≠ Status.running) ∧
    ∃ st2, statusOf (exec [] 10 (exec [] 10 (mkInit 10 [jobSpecA]) [Action.runner 0])
        [Action.stopReq "j1"]) "j1" = some st2 ∧ st2 ≠ Status.running :=
  ⟨⟨by decide, by decide⟩,
    C3_terminal_stability [] 10 (exec [] 10 (mkInit 10 [jobSpecA]) [Action.runner 0])
      [Action.stopReq "j1"] "j1" Status.done (by decide) (by decide)⟩

/-! ### C4 — limiter capacity -/

/-- C4 (counterexample): the semaphore is created inside `run_job` (line 89),
so it is per job, not process-wide.  With `MAX_THREADS = 1` and two concurrent
jobs, each runner admits one dispatch unit and the process has 2 > 1 units
simultaneously in their outbound-call phase. -/
theorem C4_capacity_not_process_wide :
    (exec [svcA] 1 (mkInit 1 [jobSpecA, jobSpecB]) twoJobsTrace).pending.length = 2 ∧
    ¬(2 ≤ 1) :=
  ⟨by decide, by decide⟩

/-- C4 (amended): the limiter bounds each job separately: at no instant does a
single job have more than `C` (`MAX_THREADS`) dispatch units in their
outbound-call phase; the process-wide count is only bounded by `C` times the
number of running jobs. -/
theorem C4_per_job_bound :
    ∀ (cat : List Service) (cap : Nat) (specs : List JobSpec) (acts : List Action)
      (sp : JobSpec), (specs.map JobSpec.jid).Nodup → sp ∈ specs →
      countJ sp.jid (exec cat cap (mkInit cap specs) acts).pending ≤ cap := by
  intro cat cap specs acts sp hn hmem
  obtain ⟨i, hi⟩ := List.mem_iff_getElem?.mp hmem
  obtain ⟨r, hr, hjid, _, _, _⟩ := final_runner cat cap specs acts hi
  have hinv := inv_exec cat cap (mkInit cap specs) acts (inv_mkInit cat cap specs hn)
  obtain ⟨h1, _, _, _, _, _⟩ := hinv.2 i r hr
  rw [← hjid]
  omega

/-- C4 (witness): per-job bound instantiated on the two-job schedule that
breaks the process-wide reading. -/
theorem C4_per_job_bound_check :
    ((([jobSpecA, jobSpecB].map JobSpec.jid).Nodup ∧ jobSpecA ∈ [jobSpecA, jobSpecB]) ∧
      countJ jobSpecA.jid
        (exec [svcA] 1 (mkInit 1 [jobSpecA, jobSpecB]) twoJobsTrace).pending ≤ 1) :=
  ⟨⟨by decide, List.mem_cons_self jobSpecA [jobSpecB]⟩,
    C4_per_job_bound [svcA] 1 [jobSpecA, jobSpecB] twoJobsTrace jobSpecA (by decide)
      (List.mem_cons_self jobSpecA [jobSpecB])⟩


/-! ### C5 — mode policy -/

/-- C5 (counterexample): with mode "Normal" and targets `["123",
"9977885544"]`, the short first target is skipped by `continue` (line 96)
before the mode check is ever reached, so the single pass is performed for
the *second* target: a dispatch unit exists for a later target and none for
the first, contradicting "exactly one pass over the first target's endpoint
list … no dispatch units for any later target". -/
theorem C5_pass_not_on_first_target :
    (exec [svcA] 10 (mkInit 10 [jobSpecSkip]) skipTrace).history.map DUnit.phone =
      ["9977885544"] ∧
    jobSpecSkip.targets = ["123", "9977885544"] ∧
    ("9977885544" : String) ≠ "123" :=
  ⟨by decide, by decide, by decide⟩

/-- C5 (amended): the mode value "Nuclear" makes the runner continue to the
next target after each endpoint pass, every other mode value drains and
terminates after the first pass (the `if mode != "Nuclear": break` of lines
118-119, stated as the step equation below); consequently, outside "Nuclear"
mode every dispatch unit the job ever spawns is for the *first valid* target
(trimmed length ≥ 10) and at most one pass over the catalog happens. -/
theorem C5_mode_policy :
    (∀ (cat : List Service) (cap : Nat) (specs : List JobSpec) (acts : List Action)
        (sp : JobSpec), (specs.map JobSpec.jid).Nodup → sp ∈ specs →
        sp.mode ≠ "Nuclear" →
        (∀ u ∈ (exec cat cap (mkInit cap specs) acts).history,
            u.jid = sp.jid → firstValid sp.targets = some u.phone) ∧
        countJ sp.jid (exec cat cap (mkInit cap specs) acts).history ≤ cat.length) ∧
    (∀ (cat : List Service) (cap : Nat) (s : ProcState) (i : Nat) (r : Runner)
        (remT : List String), s.runners[i]? = some r → r.pc = RunnerPC.passEnd remT →
        step cat cap s (Action.runner i) =
          { s with runners := s.runners.set i { r with
              pc := if r.mode = "Nuclear" then RunnerPC.nextTarget remT
                    else RunnerPC.drain cap } }) := by
  constructor
  · intro cat cap specs acts sp hn hmem hmode
    obtain ⟨i, hi⟩ := List.mem_iff_getElem?.mp hmem
    obtain ⟨r, hr, hjid, htgs, hmd, _⟩ := final_runner cat cap specs acts hi
    have hinv := inv_exec cat cap (mkInit cap specs) acts (inv_mkInit cat cap specs hn)
    obtain ⟨_, _, _, _, _, h6⟩ := hinv.2 i r hr
    obtain ⟨ha, hb⟩ := h6 (by rw [hmd]; exact hmode)
    constructor
    · intro u hu hju
      rw [← htgs]
      exact ha u hu (by rw [hjid]; exact hju)
    · rw [← hjid]
      exact pcPass_count_le cat.length _ r hb
  · intro cat cap s i r remT hi hpc
    by_cases hmode : r.mode = "Nuclear" <;>
      simp [step, runnerStep, hi, hpc, hmode]

/-- A runner standing at the end of an endpoint pass, used to witness the
mode-policy step equation. -/
def rPassEnd : Runner :=
  { jid := "j1", targets := ["123", "9977885544"], mode := "Normal", maxRequests := 10,
    services := [svcA], sem := 9, pc := RunnerPC.passEnd [] }

/-- A one-runner process state at the end of an endpoint pass. -/
def sPassEnd : ProcState :=
  { reg := [], runners := [rPassEnd], pending := [], history := [] }

/-- C5 (witness): single-pass discipline on the concrete skip run, and the
mode-check step equation on a concrete pass-end state. -/
theorem C5_mode_policy_check :
    ((([jobSpecSkip].map JobSpec.jid).Nodup ∧ jobSpecSkip ∈ [jobSpecSkip] ∧
        jobSpecSkip.mode ≠ "Nuclear" ∧
        sPassEnd.runners[0]? = some rPassEnd ∧ rPassEnd.pc = RunnerPC.passEnd []) ∧
      ((∀ u ∈ (exec [svcA] 10 (mkInit 10 [jobSpecSkip]) skipTrace).history,
          u.jid = jobSpecSkip.jid → firstValid jobSpecSkip.targets = some u.phone) ∧
        countJ jobSpecSkip.jid
          (exec [svcA] 10 (mkInit 10 [jobSpecSkip]) skipTrace).history ≤ [svcA].length)) ∧
    step [svcA] 10 sPassEnd (Action.runner 0) =
      { sPassEnd with runners := sPassEnd.runners.set 0 { rPassEnd with
          pc := if rPassEnd.mode = "Nuclear" then RunnerPC.nextTarget []
                else RunnerPC.drain 10 } } :=
  ⟨⟨⟨by decide, List.mem_singleton.mpr rfl, by decide, rfl, rfl⟩,
    C5_mode_policy.1 [svcA] 10 [jobSpecSkip] skipTrace jobSpecSkip (by decide)
      (List.mem_singleton.mpr rfl) (by decide)⟩,
    C5_mode_policy.2 [svcA] 10 sPassEnd 0 rPassEnd [] rfl rfl⟩

/-! ### C6 — dispatch outcome classification -/

/-- C6: each dispatch-unit completion records exactly one outcome, classified
as in `fire` (lines 63-78): transport failure logs `💥 <name> err` with no
increment (and, being the exception path, no trim); status < 300 increments
`sentCount` by exactly 1 and logs `✅ <name> OK`; status 403 logs
`🚫 <name> blocked` with no increment; any other status logs
`⚠️ <name> <status>` with no increment; `<name>` is the display name
truncated to at most 12 characters. -/
theorem C6_fire_classification :
    (∀ (svc : Service) (j : JobRecord),
        (fireUpdate svc Outcome.transportErr j).sent = j.sent ∧
        (fireUpdate svc Outcome.transportErr j).logs =
          ("💥 " ++ svcName svc ++ " err") :: j.logs) ∧
    (∀ (svc : Service) (j : JobRecord) (code : Nat), code < 300 →
        (fireUpdate svc (Outcome.httpStatus code) j).sent = j.sent + 1 ∧
        (fireUpdate svc (Outcome.httpStatus code) j).logs =
          (("✅ " ++ svcName svc ++ " OK") :: j.logs).take 30) ∧
    (∀ (svc : Service) (j : JobRecord),
        (fireUpdate svc (Outcome.httpStatus 403) j).sent = j.sent ∧
        (fireUpdate svc (Outcome.httpStatus 403) j).logs =
          (("🚫 " ++ svcName svc ++ " blocked") :: j.logs).take 30) ∧
    (∀ (svc : Service) (j : JobRecord) (code : Nat), ¬code < 300 → code ≠ 403 →
        (fireUpdate svc (Outcome.httpStatus code) j).sent = j.sent ∧
        (fireUpdate svc (Outcome.httpStatus code) j).logs =
          (("⚠️ " ++ svcName svc ++ " " ++ toString code) :: j.logs).take 30) ∧
    (∀ svc : Service, (svcName svc).length ≤ 12) := by
  refine ⟨fun svc j => ⟨rfl, rfl⟩, ?_, ?_, ?_, ?_⟩
  · intro svc j code hc
    exact ⟨by simp [fireUpdate, hc], by simp [fireUpdate, hc]⟩
  · intro svc j
    exact ⟨by norm_num [fireUpdate], by norm_num [fireUpdate]⟩
  · intro svc j code hc hc4
    exact ⟨by simp [fireUpdate, hc, hc4], by simp [fireUpdate, hc, hc4]⟩
  · intro svc
    show (List.take 12 (svc.name.getD "svc").data).length ≤ 12
    rw [List.length_take]
    exact min_le_left _ _
/-- C6 (witness): the four classification clauses evaluated at concrete
services, records and status codes. -/
theorem C6_fire_classification_check :
    ((fireUpdate svcB Outcome.transportErr (mkJob jobSpecA)).sent = (mkJob jobSpecA).sent ∧
      (fireUpdate svcB Outcome.transportErr (mkJob jobSpecA)).logs =
        ("💥 " ++ svcName svcB ++ " err") :: (mkJob jobSpecA).logs) ∧
    ((200 : Nat) < 300 ∧
      (fireUpdate svcA (Outcome.httpStatus 200) (mkJob jobSpecA)).sent =
          (mkJob jobSpecA).sent + 1 ∧
      (fireUpdate svcA (Outcome.httpStatus 200) (mkJob jobSpecA)).logs =
        (("✅ " ++ svcName svcA ++ " OK") :: (mkJob jobSpecA).logs).take 30) ∧
    ((fireUpdate svcA (Outcome.httpStatus 403) (mkJob jobSpecA)).sent =
        (mkJob jobSpecA).sent ∧
      (fireUpdate svcA (Outcome.httpStatus 403) (mkJob jobSpecA)).logs =
        (("🚫 " ++ svcName svcA ++ " blocked") :: (mkJob jobSpecA).logs).take 30) ∧
    (¬(500 : Nat) < 300 ∧ (500 : Nat) ≠ 403 ∧
      (fireUpdate svcA (Outcome.httpStatus 500) (mkJob jobSpecA)).sent =
          (mkJob jobSpecA).sent ∧
      (fireUpdate svcA (Outcome.httpStatus 500) (mkJob jobSpecA)).logs =
        (("⚠️ " ++ svcName svcA ++ " " ++ toString (500 : Nat)) ::
          (mkJob jobSpecA).logs).take 30) ∧
    (svcName svcA).length ≤ 12 :=
  ⟨C6_fire_classification.1 svcB (mkJob jobSpecA),
    ⟨by decide,
      C6_fire_classification.2.1 svcA (mkJob jobSpecA) 200 (by decide)⟩,
    C6_fire_classification.2.2.1 svcA (mkJob jobSpecA),
    ⟨by decide, by decide,
      C6_fire_classification.2.2.2.1 svcA (mkJob jobSpecA) 500 (by decide) (by decide)⟩,
    C6_fire_classification.2.2.2.2 svcA⟩

/-! ### C7 — empty catalog -/

/-- C7: for every started job, if the loaded endpoint catalog is empty then no
outbound call is ever issued and the sent counter stays 0, and once the runner
has been scheduled (and absent stop requests) the job is 'done' with exactly
the one explanatory log entry. -/
theorem C7_empty_catalog :
    ∀ (cap : Nat) (sp : JobSpec) (acts : List Action),
      (∀ jid, Action.stopReq jid ∉ acts) →
      (exec [] cap (mkInit cap [sp]) acts).history = [] ∧
      sentOf (exec [] cap (mkInit cap [sp]) acts) sp.jid = 0 ∧
      (Action.runner 0 ∈ acts →
        statusOf (exec [] cap (mkInit cap [sp]) acts) sp.jid = some Status.done ∧
        logsOf (exec [] cap (mkInit cap [sp]) acts) sp.jid = [noServicesLog]) := by
  intro cap sp acts hstop
  rw [exec_empty_cat cap sp acts hstop]
  by_cases hmem : Action.runner 0 ∈ acts
  · rw [if_pos hmem]
    refine ⟨rfl, ?_, fun _ => ⟨?_, ?_⟩⟩
    · simp [donePost, sentOf, lookupJob, mkJob]
    · simp [donePost, statusOf, lookupJob]
    · simp [donePost, logsOf, lookupJob]
  · rw [if_neg hmem]
    exact ⟨rfl, by simp [mkInit, sentOf, lookupJob, mkJob], fun hc => absurd hc hmem⟩

/-- C7 (witness): a concrete one-job run over the empty catalog in which the
runner is scheduled once. -/
theorem C7_empty_catalog_check :
    ((∀ jid, Action.stopReq jid ∉ [Action.runner 0]) ∧
      Action.runner 0 ∈ [Action.runner 0]) ∧
    ((exec [] 10 (mkInit 10 [jobSpecA]) [Action.runner 0]).history = [] ∧
      sentOf (exec [] 10 (mkInit 10 [jobSpecA]) [Action.runner 0]) jobSpecA.jid = 0 ∧
      (Action.runner 0 ∈ [Action.runner 0] →
        statusOf (exec [] 10 (mkInit 10 [jobSpecA]) [Action.runner 0]) jobSpecA.jid =
          some Status.done ∧
        logsOf (exec [] 10 (mkInit 10 [jobSpecA]) [Action.runner 0]) jobSpecA.jid =
          [noServicesLog])) :=
  ⟨⟨fun jid h => by simp at h, by decide⟩,
    C7_empty_catalog 10 jobSpecA [Action.runner 0] (fun jid h => by simp at h)⟩

/-! ### C8 — short targets are skipped -/

/-- A runner about to consider the short target "123". -/
def rAtShort : Runner :=
  { jid := "j1", targets := ["123", "9977885544"], mode := "Normal", maxRequests := 10,
    services := [svcA], sem := 10, pc := RunnerPC.nextTarget ["123", "9977885544"] }

/-- A runner about to consider the valid target. -/
def rAtValid : Runner :=
  { jid := "j1", targets := ["123", "9977885544"], mode := "Normal", maxRequests := 10,
    services := [svcA], sem := 10, pc := RunnerPC.nextTarget ["9977885544"] }

/-- One-runner states for the two target-filter step equations. -/
def sAtShort : ProcState :=
  { reg := [], runners := [rAtShort], pending := [], history := [] }

/-- One-runner state at the valid target. -/
def sAtValid : ProcState :=
  { reg := [], runners := [rAtValid], pending := [], history := [] }

/-- C8: targets whose trimmed form is shorter than 10 are silently skipped —
the step only advances the loop (registry, in-flight units, history and
semaphore untouched), so they contribute zero dispatch units, zero log
entries and zero sent increments; a target of trimmed length ≥ 10 is
processed (the runner enters its endpoint pass).  Moreover every unit ever
spawned for a job carries the trimmed form, of length ≥ 10, of one of the
job's targets. -/
theorem C8_target_filter :
    (∀ (cat : List Service) (cap : Nat) (specs : List JobSpec) (acts : List Action)
        (sp : JobSpec), (specs.map JobSpec.jid).Nodup → sp ∈ specs →
        ∀ u ∈ (exec cat cap (mkInit cap specs) acts).history, u.jid = sp.jid →
          10 ≤ u.phone.length ∧ ∃ t ∈ sp.targets, u.phone = pyStrip t) ∧
    (∀ (cat : List Service) (cap : Nat) (s : ProcState) (i : Nat) (r : Runner)
        (t : String) (rest : List String),
        s.runners[i]? = some r → r.pc = RunnerPC.nextTarget (t :: rest) →
        (pyStrip t).length < 10 →
        step cat cap s (Action.runner i) =
          { s with runners := s.runners.set i { r with pc := RunnerPC.nextTarget rest } }) ∧
    (∀ (cat : List Service) (cap : Nat) (s : ProcState) (i : Nat) (r : Runner)
        (t : String) (rest : List String),
        s.runners[i]? = some r → r.pc = RunnerPC.nextTarget (t :: rest) →
        ¬(pyStrip t).length < 10 →
        step cat cap s (Action.runner i) =
          { s with runners := s.runners.set i { r with
              pc := RunnerPC.checkSvc r.services (pyStrip t) rest } }) := by
  refine ⟨?_, ?_, ?_⟩
  · intro cat cap specs acts sp hn hmem u hu hju
    obtain ⟨i, hi⟩ := List.mem_iff_getElem?.mp hmem
    obtain ⟨r, hr, hjid, htgs, _, _⟩ := final_runner cat cap specs acts hi
    have hinv := inv_exec cat cap (mkInit cap specs) acts (inv_mkInit cat cap specs hn)
    obtain ⟨_, _, _, _, h5, _⟩ := hinv.2 i r hr
    rw [← htgs]
    exact h5 u hu (by rw [hjid]; exact hju)
  · intro cat cap s i r t rest hi hpc hlen
    simp only [step, runnerStep, hi, hpc]
    rw [if_pos hlen]
  · intro cat cap s i r t rest hi hpc hlen
    simp only [step, runnerStep, hi, hpc]
    rw [if_neg hlen]

/-- C8 (witness): provenance on the concrete skip run, the skip equation at
the short target "123", and the processing equation at the valid target. -/
theorem C8_target_filter_check :
    ((([jobSpecSkip].map JobSpec.jid).Nodup ∧ jobSpecSkip ∈ [jobSpecSkip] ∧
        sAtShort.runners[0]? = some rAtShort ∧
        rAtShort.pc = RunnerPC.nextTarget ["123", "9977885544"] ∧
        (pyStrip "123").length < 10 ∧
        sAtValid.runners[0]? = some rAtValid ∧
        rAtValid.pc = RunnerPC.nextTarget ["9977885544"] ∧
        ¬(pyStrip "9977885544").length < 10) ∧
      (∀ u ∈ (exec [svcA] 10 (mkInit 10 [jobSpecSkip]) skipTrace).history,
          u.jid = jobSpecSkip.jid →
          10 ≤ u.phone.length ∧ ∃ t ∈ jobSpecSkip.targets, u.phone = pyStrip t)) ∧
    step [svcA] 10 sAtShort (Action.runner 0) =
      { sAtShort with runners := sAtShort.runners.set 0 { rAtShort with
          pc := RunnerPC.nextTarget ["9977885544"] } } ∧
    step [svcA] 10 sAtValid (Action.runner 0) =
      { sAtValid with runners := sAtValid.runners.set 0 { rAtValid with
          pc := RunnerPC.checkSvc rAtValid.services (pyStrip "9977885544") [] } } :=
  ⟨⟨⟨by decide, List.mem_singleton.mpr rfl, rfl, rfl, by decide, rfl, rfl, by decide⟩,
      C8_target_filter.1 [svcA] 10 [jobSpecSkip] skipTrace jobSpecSkip (by decide)
        (List.mem_singleton.mpr rfl)⟩,
    C8_target_filter.2.1 [svcA] 10 sAtShort 0 rAtShort "123" ["9977885544"] rfl rfl
      (by decide),
    C8_target_filter.2.2 [svcA] 10 sAtValid 0 rAtValid "9977885544" [] rfl rfl
      (by decide)⟩


/-! ### C9 — parameter clamping on start -/

/-- Both clamped start parameters land in their documented intervals. -/
theorem clampDelay_mem (d : ℚ) : (0.1 : ℚ) ≤ clampDelay d ∧ clampDelay d ≤ 60 :=
  ⟨le_max_left _ _, max_le (by norm_num) (le_trans (min_le_right _ _) (by norm_num))⟩

theorem clampMaxRequests_mem (m : Int) :
    1 ≤ (clampMaxRequests m).toNat ∧ (clampMaxRequests m).toNat ≤ 1000 := by
  have h1 : (1 : Int) ≤ clampMaxRequests m := le_max_left _ _
  have h2 : clampMaxRequests m ≤ 1000 := max_le (by norm_num) (min_le_right _ _)
  omega

/-- C9: every accepted start request stores `delay` clamped to [0.1, 60] and
`max_requests` clamped to [1, 1000], and echoes the stored (clamped) values in
the 202 response; in particular `delay = 0.05` is stored as 0.1 and
`max_requests = 2000` as 1000. -/
theorem C9_clamping :
    (∀ (jid now : String) (body : StartBody) (sp : JobSpec) (rec : JobRecord)
        (resp : StartResponse),
        startJobBody jid now body = StartResult.accepted sp rec resp →
        rec.delay = clampDelay (body.delay.getD 0.5) ∧
        (0.1 : ℚ) ≤ rec.delay ∧ rec.delay ≤ 60 ∧
        rec.maxRequests = (clampMaxRequests (body.maxRequests.getD 10)).toNat ∧
        1 ≤ rec.maxRequests ∧ rec.maxRequests ≤ 1000 ∧
        resp.delay = rec.delay ∧ resp.maxRequests = rec.maxRequests) ∧
    clampDelay 0.05 = 0.1 ∧ clampMaxRequests 2000 = 1000 := by
  refine ⟨?_, ?_, ?_⟩
  · intro jid now body sp rec resp h
    by_cases hte : parseTargets body.targets = []
    · simp only [startJobBody, if_pos hte] at h
      cases h
    · simp only [startJobBody, if_neg hte] at h
      injection h with e1 e2 e3
      subst e1
      subst e2
      subst e3
      refine ⟨rfl, (clampDelay_mem _).1, (clampDelay_mem _).2, rfl,
        (clampMaxRequests_mem _).1, (clampMaxRequests_mem _).2, rfl, rfl⟩
  · unfold clampDelay
    rw [min_eq_left (by norm_num), max_eq_left (by norm_num)]
  · unfold clampMaxRequests
    rw [min_eq_right (by norm_num), max_eq_right (by norm_num)]

/-- Start body of the clamping scenario from the spec: `delay = 0.05`,
`max_requests = 2000`. -/
def c9Body : StartBody :=
  { targets := RawTargets.ofList ["9977885544"], mode := none, delay := some 0.05,
    maxRequests := some 2000 }

/-- The spec `start_job` hands to `run_job` for `c9Body`. -/
def c9Spec : JobSpec :=
  { jid := "jx", targets := ["9977885544"], mode := "Normal",
    delay := clampDelay 0.05, maxReq := (clampMaxRequests 2000).toNat, startedAt := "t0" }

/-- The echoed 202 payload for `c9Body`. -/
def c9Resp : StartResponse :=
  { jobId := "jx", status := "running", targetsCount := 1, mode := "Normal",
    delay := clampDelay 0.05, maxRequests := (clampMaxRequests 2000).toNat }

/-- C9 (witness): the clamping contract evaluated on the concrete request with
`delay = 0.05` and `max_requests = 2000`. -/
theorem C9_clamping_check :
    startJobBody "jx" "t0" c9Body = StartResult.accepted c9Spec (mkJob c9Spec) c9Resp ∧
    ((mkJob c9Spec).delay = clampDelay (c9Body.delay.getD 0.5) ∧
      (0.1 : ℚ) ≤ (mkJob c9Spec).delay ∧ (mkJob c9Spec).delay ≤ 60 ∧
      (mkJob c9Spec).maxRequests = (clampMaxRequests (c9Body.maxRequests.getD 10)).toNat ∧
      1 ≤ (mkJob c9Spec).maxRequests ∧ (mkJob c9Spec).maxRequests ≤ 1000 ∧
      c9Resp.delay = (mkJob c9Spec).delay ∧
      c9Resp.maxRequests = (mkJob c9Spec).maxRequests) :=
  ⟨rfl, C9_clamping.1 "jx" "t0" c9Body c9Spec (mkJob c9Spec) c9Resp rfl⟩

/-! ### C10 — key-based authentication -/

/-- C10 (counterexample): `/health` (lines 135-137) carries no `require_key`
decorator: it takes no key at all, never rejects, and still reads job state —
its `active_jobs` field is the size of the job registry, so its response
depends on the registry.  This contradicts "every endpoint of the service that
reads or mutates job state rejects a request whose pre-shared key header is
absent". -/
theorem C10_health_reads_without_key :
    (healthRoute demoReg).activeJobs = 1 ∧ (healthRoute []).activeJobs = 0 ∧
    (healthRoute demoReg).status = "ok" :=
  ⟨rfl, rfl, rfl⟩

/-- C10 (amended): the four `/api` job routes (start, status, stop, list)
reject a request whose `X-API-Key` header is absent, blank, or different from
the configured key, before any job-state access: the response is the fixed
403 payload and the registry is returned unchanged.  The unauthenticated
`/health` route is excluded (see counterexample). -/
theorem C10_api_key_required :
    ∀ (apiKey : String) (header : Option String) (jid now : String) (body : StartBody)
      (reg : Registry), keyOk apiKey header = false →
      startRoute apiKey header jid now body reg = (ApiResult.unauthorized, reg) ∧
      statusRoute apiKey header jid reg = (ApiResult.unauthorized, reg) ∧
      stopRoute apiKey header jid reg = (ApiResult.unauthorized, reg) ∧
      listRoute apiKey header reg = (ApiResult.unauthorized, reg) := by
  intro apiKey header jid now body reg h
  refine ⟨?_, ?_, ?_, ?_⟩ <;> simp [startRoute, statusRoute, stopRoute, listRoute, h]

/-- C10 (witness): all four routes reject a request with no key header. -/
theorem C10_api_key_required_check :
    keyOk "render12345" none = false ∧
    (startRoute "render12345" none "j1" "t0" c9Body demoReg =
        (ApiResult.unauthorized, demoReg) ∧
      statusRoute "render12345" none "j1" demoReg = (ApiResult.unauthorized, demoReg) ∧
      stopRoute "render12345" none "j1" demoReg = (ApiResult.unauthorized, demoReg) ∧
      listRoute "render12345" none demoReg = (ApiResult.unauthorized, demoReg)) :=
  ⟨by decide, C10_api_key_required "render12345" none "j1" "t0" c9Body demoReg (by decide)⟩

end BurstApi
